import Mathlib

/-! # release-pilot: plugin command handlers and project detection

A shallow embedding of `internal/cli/plugin.go` and
`internal/cli/templates/detector.go`, followed by the properties proved about it.

Conventions of the embedding

* A Go `error` is an `Option GoError`; `none` is `nil`.
* A Go function returning `(T, error)` is an `Except GoError T`: every caller
  in these files ignores the value when the error is not nil.
* Standard output is a `List String`, one element for each `fmt.Println` or
  `fmt.Printf` call, without the newline that ends it.
* A Go `map` is an association list with distinct keys, and a `range` over it
  takes the order of the iteration as an argument, since Go leaves it open.
* Go `int` is `Int`; all numbers here are far below the machine bounds.
-/

namespace ReleasePilot

/-! ## Go errors -/

/-- A Go error value: either an error made elsewhere, known by its message,
or the result of `fmt.Errorf` with a `%w` verb, which keeps the error it wraps. -/
inductive GoError where
  | base (msg : String)
  | wrap (msg : String) (inner : GoError)
  deriving DecidableEq, Repr

/-- The method `Error()`: the message of the error. -/
def GoError.Error : GoError → String
  | .base msg => msg
  | .wrap msg _ => msg

/-- The function `errors.Unwrap`: the wrapped error, if there is one. -/
def GoError.Unwrap : GoError → Option GoError
  | .base _ => none
  | .wrap _ inner => some inner

/-- The call `fmt.Errorf(text + "%w", err)`: the message is `text` followed by
the message of `err`, and the result wraps `err`. -/
def Errorf (text : String) (err : GoError) : GoError :=
  .wrap (text ++ err.Error) err

/-! ## Go maps -/

namespace GoMap

variable {K V : Type} [DecidableEq K]

/-- The lookup `v, ok := m[k]`; `none` when the key is absent. -/
def get? : List (K × V) → K → Option V
  | [], _ => none
  | (k', v) :: m, k => if k' = k then some v else get? m k

/-- The assignment `m[k] = v`. -/
def set : List (K × V) → K → V → List (K × V)
  | [], k, v => [(k, v)]
  | (k', v') :: m, k, v => if k' = k then (k, v) :: m else (k', v') :: set m k v

/-- The read `m[k]`, which gives the zero value `zero` for an absent key. -/
def getD (m : List (K × V)) (k : K) (zero : V) : V :=
  (get? m k).getD zero

/-- The statement `m[k] += n` on a map of integers. -/
def add (m : List (K × Int)) (k : K) (n : Int) : List (K × Int) :=
  set m k (getD m k 0 + n)

/-- The entries of `m` in the order a `for k, v := range m` meets them. Go
leaves the order open; here the keys are met in the order of their first
position in `ord` (keys outside `ord` last), so that each `ord` gives one
order and every order of the entries is given by some `ord`. -/
def range (m : List (K × V)) (ord : List K) : List (K × V) :=
  m.insertionSort (fun a b => ord.indexOf a.1 ≤ ord.indexOf b.1)

/-- The loop `maxScore := 0; for k, score := range scores { if score > maxScore
{ maxScore = score; ... } }` of the detector over the entries in the order of
the iteration: the state is `maxScore` and the detection, and `update` is the
rest of the body of the `if`; the second component of the result is the
detection after the loop. -/
def highest {D : Type} (entries : List (K × Int)) (update : D → K → Int → D)
    (detection : D) : Int × D :=
  entries.foldl
    (fun st e => if e.2 > st.1 then (e.2, update st.2 e.1 e.2) else st)
    (0, detection)

/-- The statement `if c { m[k] += n }`, the form of every statement that
fills a map of scores. -/
def addWhen (c : Prop) [Decidable c] (m : List (K × Int)) (k : K) (n : Int) : List (K × Int) :=
  if c then add m k n else m

/-- The keys of a map. -/
def keys (m : List (K × V)) : List K :=
  m.map Prod.fst

/-- A map of scores over the keys `S`: the keys are distinct and among `S`,
and every score in the map is positive. -/
def IsScores (S : List K) (m : List (K × Int)) : Prop :=
  (keys m).Nodup ∧ ∀ p ∈ m, p.1 ∈ S ∧ 0 < p.2

end GoMap

/-! ## The plugin manager, as the command handlers see it -/

/-- Modelled from the spec: the type `manager.PluginStatus`, declared in the
package `internal/plugin/manager` (PluginState: NotInstalled, Installed,
Enabled, UpdateAvailable). -/
inductive PluginStatus where
  | StatusNotInstalled
  | StatusInstalled
  | StatusEnabled
  | StatusUpdateAvailable
  deriving DecidableEq, Repr

/-- Modelled from the spec: the type `manager.PluginInfo`, with the fields
that `plugin.go` reads. -/
structure PluginInfo where
  Name : String
  Version : String
  Description : String
  Category : String
  deriving DecidableEq, Repr

/-- Modelled from the spec: the type `manager.InstalledPlugin`, with the field
that `plugin.go` reads. -/
structure InstalledPlugin where
  Name : String
  Version : String
  deriving DecidableEq, Repr

/-- Modelled from the spec: the type `manager.PluginListEntry`. `Installed` is
a pointer in the source (`entry.Installed != nil`), `none` is `nil`. -/
structure PluginListEntry where
  Info : PluginInfo
  Installed : Option InstalledPlugin
  Status : PluginStatus
  deriving DecidableEq, Repr

/-- The behaviour of a `*manager.Manager`: what each operation returns. The
context argument of the operations is left out. -/
structure Manager where
  ListAvailable : Bool → Except GoError (List PluginListEntry)
  ListInstalled : Except GoError (List PluginListEntry)
  Install : String → Option GoError
  Uninstall : String → Option GoError
  Enable : String → Option GoError
  Disable : String → Option GoError

/-- What a handler of `plugin.go` takes from outside the file: the result of
`manager.NewManager()`, the `%q` verb of `fmt` (`strconv.Quote`), and
`printSuccess`, which is declared in another file of the package. -/
structure Env where
  NewManager : Except GoError Manager
  quote : String → String
  printSuccess : String → List String

/-- A call from a handler into the manager package. -/
inductive ManagerCall where
  | NewManager
  | ListAvailable (refresh : Bool)
  | ListInstalled
  | Install (name : String)
  | Uninstall (name : String)
  | Enable (name : String)
  | Disable (name : String)
  deriving DecidableEq, Repr

/-- A manager operation, as opposed to the construction of the manager. -/
def ManagerCall.isOperation : ManagerCall → Bool
  | .NewManager => false
  | _ => true

/-- One run of a handler: the calls it made into the manager package, in
order, what it printed, and the error it returned. -/
structure Run where
  calls : List ManagerCall
  stdout : List String
  err : Option GoError
  deriving DecidableEq, Repr

/-! ## `plugin.go`: printing -/

/-- The verb `%-Ns` of `fmt.Printf`: `s` followed by blanks up to `n` runes. -/
def padRight (n : Nat) (s : String) : String :=
  s ++ String.mk (List.replicate (n - s.length) ' ')

/-- The function `formatStatus`. -/
def formatStatus (status : String) : String :=
  let statusColors : List (String × String) :=
    [("enabled", "enabled"), ("disabled", "disabled"), ("update available", "update")]
  match GoMap.get? statusColors status with
  | some colored => colored
  | none => status

/-- The status switch in the loop of `displayInstalledPlugins`: the icon and
the text for a status. -/
def installedStatus : PluginStatus → String × String
  | .StatusEnabled => ("✓", "enabled")
  | .StatusInstalled => ("✗", "disabled")
  | .StatusUpdateAvailable => ("⚠", "update available")
  | _ => (" ", "unknown")

/-- The version chosen in the loop of `displayInstalledPlugins`. -/
def installedVersion (entry : PluginListEntry) : String :=
  let version := entry.Info.Version
  match entry.Installed with
  | some installed => installed.Version
  | none => version

/-- The `fmt.Printf("  %s %-15s (%-8s)  %s  %s\n", ...)` of
`displayInstalledPlugins`. -/
def installedRow (statusIcon name version status description : String) : String :=
  "  " ++ statusIcon ++ " " ++ padRight 15 name ++ " (" ++ padRight 8 version ++ ")  " ++
    status ++ "  " ++ description

/-- The body of the loop of `displayInstalledPlugins` for one entry. -/
def installedLine (entry : PluginListEntry) : String :=
  let (statusIcon, statusText) := installedStatus entry.Status
  let version := installedVersion entry
  installedRow statusIcon entry.Info.Name version (formatStatus statusText) entry.Info.Description

/-- The function `displayInstalledPlugins`: what it prints. -/
def displayInstalledPlugins (entries : List PluginListEntry) : List String :=
  ["Installed Plugins:", ""] ++
    entries.map installedLine ++
    ["", "Use 'release-pilot plugin info <name>' for more details."]

/-- The first loop of `displayAvailablePlugins`: the map from a category to its
entries, an empty category filed under "other". -/
def groupByCategory (entries : List PluginListEntry) : List (String × List PluginListEntry) :=
  entries.foldl
    (fun categories entry =>
      let category := if entry.Info.Category = "" then "other" else entry.Info.Category
      GoMap.set categories category (GoMap.getD categories category [] ++ [entry]))
    []

/-- The slice `categoryNames` of `displayAvailablePlugins`. -/
def categoryNames : List String :=
  ["vcs", "notification", "package_manager", "project_management", "container", "other"]

/-- The map `categoryTitles` of `displayAvailablePlugins`. -/
def categoryTitles : List (String × String) :=
  [("vcs", "Version Control:"), ("notification", "Notifications:"),
   ("package_manager", "Package Managers:"), ("project_management", "Project Management:"),
   ("container", "Containers:"), ("other", "Other:")]

/-- The status switch in the inner loop of `displayAvailablePlugins`. -/
def availableStatus : PluginStatus → String
  | .StatusEnabled => "✓ installed"
  | .StatusInstalled => "✓ installed"
  | .StatusUpdateAvailable => "⚠ update"
  | _ => ""

/-- The `fmt.Printf("  %-12s %-8s  %-12s %s\n", ...)` of
`displayAvailablePlugins` for one entry. -/
def availableLine (entry : PluginListEntry) : String :=
  let status := availableStatus entry.Status
  "  " ++ padRight 12 entry.Info.Name ++ " " ++ padRight 8 entry.Info.Version ++ "  " ++
    padRight 12 status ++ " " ++ entry.Info.Description

/-- The body of the second loop of `displayAvailablePlugins` for one category:
nothing for a category without entries, else the title, a line for each entry
and an empty line. -/
def availableSection (categories : List (String × List PluginListEntry))
    (category : String) : List String :=
  match GoMap.get? categories category with
  | none => []
  | some plugins =>
    if plugins.length = 0 then []
    else [GoMap.getD categoryTitles category ""] ++ plugins.map availableLine ++ [""]

/-- The function `displayAvailablePlugins`: what it prints. -/
def displayAvailablePlugins (entries : List PluginListEntry) : List String :=
  let categories := groupByCategory entries
  ["Available Plugins:", ""] ++
    (categoryNames.map (availableSection categories)).flatten ++
    ["Use 'release-pilot plugin install <name>' to install a plugin.",
     "Use 'release-pilot plugin info <name>' for more details."]

/-! ## `plugin.go`: the handlers -/

/-- The end of `runPluginList`, once the entries are there: what is printed. -/
def listOutput (pluginListAvailable : Bool) (entries : List PluginListEntry) : List String :=
  if entries.length = 0 then
    if pluginListAvailable then ["No plugins available in registry."]
    else
      ["No plugins installed.", "",
       "Use 'release-pilot plugin list --available' to see available plugins.",
       "Use 'release-pilot plugin install <name>' to install a plugin."]
  else if pluginListAvailable then displayAvailablePlugins entries
  else displayInstalledPlugins entries

/-- The function `runPluginList`; the two flags are the package variables
`pluginListAvailable` and `pluginListRefresh`. -/
def runPluginList (env : Env) (pluginListAvailable pluginListRefresh : Bool)
    (_args : List String) : Run :=
  match env.NewManager with
  | .error err =>
    { calls := [.NewManager], stdout := [],
      err := some (Errorf "failed to create plugin manager: " err) }
  | .ok mgr =>
    if pluginListAvailable then
      match mgr.ListAvailable pluginListRefresh with
      | .error err =>
        { calls := [.NewManager, .ListAvailable pluginListRefresh], stdout := [],
          err := some (Errorf "failed to list available plugins: " err) }
      | .ok entries =>
        { calls := [.NewManager, .ListAvailable pluginListRefresh],
          stdout := listOutput pluginListAvailable entries, err := none }
    else
      match mgr.ListInstalled with
      | .error err =>
        { calls := [.NewManager, .ListInstalled], stdout := [],
          err := some (Errorf "failed to list installed plugins: " err) }
      | .ok entries =>
        { calls := [.NewManager, .ListInstalled],
          stdout := listOutput pluginListAvailable entries, err := none }

/-- The function `runPluginInstall`; `none` is the run-time panic of `args[0]`
on an empty argument list. -/
def runPluginInstall (env : Env) (args : List String) : Option Run :=
  match args with
  | [] => none
  | pluginName :: _ =>
    match env.NewManager with
    | .error err =>
      some { calls := [.NewManager], stdout := [],
             err := some (Errorf "failed to create plugin manager: " err) }
    | .ok mgr =>
      let out := ["Installing plugin " ++ env.quote pluginName ++ "..."]
      match mgr.Install pluginName with
      | some err =>
        some { calls := [.NewManager, .Install pluginName], stdout := out,
               err := some (Errorf "failed to install plugin: " err) }
      | none =>
        some { calls := [.NewManager, .Install pluginName],
               stdout := out ++ [""] ++
                 env.printSuccess ("Plugin " ++ env.quote pluginName ++ " installed successfully") ++
                 ["", "To use this plugin:",
                  "  1. Enable it: release-pilot plugin enable " ++ pluginName,
                  "  2. Configure it in release.config.yaml"],
               err := none }

/-- The function `runPluginUninstall`; `none` is the run-time panic of
`args[0]` on an empty argument list. -/
def runPluginUninstall (env : Env) (args : List String) : Option Run :=
  match args with
  | [] => none
  | pluginName :: _ =>
    match env.NewManager with
    | .error err =>
      some { calls := [.NewManager], stdout := [],
             err := some (Errorf "failed to create plugin manager: " err) }
    | .ok mgr =>
      let out := ["Uninstalling plugin " ++ env.quote pluginName ++ "..."]
      match mgr.Uninstall pluginName with
      | some err =>
        some { calls := [.NewManager, .Uninstall pluginName], stdout := out,
               err := some (Errorf "failed to uninstall plugin: " err) }
      | none =>
        some { calls := [.NewManager, .Uninstall pluginName],
               stdout := out ++
                 env.printSuccess ("Plugin " ++ env.quote pluginName ++ " uninstalled successfully"),
               err := none }

/-- The function `runPluginEnable`; `none` is the run-time panic of `args[0]`
on an empty argument list. -/
def runPluginEnable (env : Env) (args : List String) : Option Run :=
  match args with
  | [] => none
  | pluginName :: _ =>
    match env.NewManager with
    | .error err =>
      some { calls := [.NewManager], stdout := [],
             err := some (Errorf "failed to create plugin manager: " err) }
    | .ok mgr =>
      match mgr.Enable pluginName with
      | some err =>
        some { calls := [.NewManager, .Enable pluginName], stdout := [],
               err := some (Errorf "failed to enable plugin: " err) }
      | none =>
        some { calls := [.NewManager, .Enable pluginName],
               stdout := env.printSuccess ("Plugin " ++ env.quote pluginName ++ " enabled") ++
                 ["", "Next steps:", "  1. Configure the plugin in release.config.yaml",
                  "  2. Run release-pilot commands to use the plugin"],
               err := none }

/-- The function `runPluginDisable`; `none` is the run-time panic of `args[0]`
on an empty argument list. -/
def runPluginDisable (env : Env) (args : List String) : Option Run :=
  match args with
  | [] => none
  | pluginName :: _ =>
    match env.NewManager with
    | .error err =>
      some { calls := [.NewManager], stdout := [],
             err := some (Errorf "failed to create plugin manager: " err) }
    | .ok mgr =>
      match mgr.Disable pluginName with
      | some err =>
        some { calls := [.NewManager, .Disable pluginName], stdout := [],
               err := some (Errorf "failed to disable plugin: " err) }
      | none =>
        some { calls := [.NewManager, .Disable pluginName],
               stdout := env.printSuccess ("Plugin " ++ env.quote pluginName ++ " disabled"),
               err := none }

/-! ## `detector.go`: the data -/

/-- The type `Language`, a Go string. -/
abbrev Language := String

/-- The constant `LanguageGo`. -/
def LanguageGo : Language := "go"
/-- The constant `LanguageNode`. -/
def LanguageNode : Language := "node"
/-- The constant `LanguagePython`. -/
def LanguagePython : Language := "python"
/-- The constant `LanguageRust`. -/
def LanguageRust : Language := "rust"
/-- The constant `LanguageRuby`. -/
def LanguageRuby : Language := "ruby"
/-- The constant `LanguageUnknown`. -/
def LanguageUnknown : Language := "unknown"

/-- The type `Platform`, a Go string. -/
abbrev Platform := String

/-- The constant `PlatformDocker`. -/
def PlatformDocker : Platform := "docker"
/-- The constant `PlatformKubernetes`. -/
def PlatformKubernetes : Platform := "kubernetes"
/-- The constant `PlatformServerless`. -/
def PlatformServerless : Platform := "serverless"
/-- The constant `PlatformNative`. -/
def PlatformNative : Platform := "native"

/-- The type `ProjectType`, a Go string. -/
abbrev ProjectType := String

/-- The constant `ProjectTypeOpenSource`. -/
def ProjectTypeOpenSource : ProjectType := "opensource"
/-- The constant `ProjectTypeSaaS`. -/
def ProjectTypeSaaS : ProjectType := "saas"
/-- The constant `ProjectTypeAPI`. -/
def ProjectTypeAPI : ProjectType := "api"
/-- The constant `ProjectTypeCLI`. -/
def ProjectTypeCLI : ProjectType := "cli"
/-- The constant `ProjectTypeLibrary`. -/
def ProjectTypeLibrary : ProjectType := "library"
/-- The constant `ProjectTypeMobile`. -/
def ProjectTypeMobile : ProjectType := "mobile"
/-- The constant `ProjectTypeContainer`. -/
def ProjectTypeContainer : ProjectType := "container"
/-- The constant `ProjectTypeMonorepo`. -/
def ProjectTypeMonorepo : ProjectType := "monorepo"
/-- The constant `ProjectTypeUnknown`. -/
def ProjectTypeUnknown : ProjectType := "unknown"

/-- The struct `Detection`; every field starts at its Go zero value. -/
structure Detection where
  Language : Language := ""
  LanguageConfidence : Int := 0
  SecondaryLanguages : List ReleasePilot.Language := []
  Platform : Platform := ""
  PlatformConfidence : Int := 0
  ProjectType : ProjectType := ""
  TypeConfidence : Int := 0
  GitRepository : String := ""
  GitBranch : String := ""
  IsMonorepo : Bool := false
  MonorepoRoot : String := ""
  HasDockerfile : Bool := false
  HasKubernetesConfig : Bool := false
  HasCI : Bool := false
  CIProvider : String := ""
  PackageManager : String := ""
  BuildTool : String := ""
  SuggestedTemplate : String := ""
  deriving DecidableEq, Repr

/-- The map `ignoredDirs`. -/
def ignoredDirs : List (String × Bool) :=
  [("node_modules", true), ("vendor", true), (".git", true), (".svn", true), (".hg", true),
   ("dist", true), ("build", true), ("target", true), (".next", true), (".nuxt", true),
   ("coverage", true), (".nyc_output", true), ("venv", true), (".venv", true),
   ("__pycache__", true), (".pytest_cache", true), (".tox", true), (".mypy_cache", true),
   (".cache", true), (".terraform", true), (".idea", true), (".vscode", true)]

/-- The struct `Detector`. -/
structure Detector where
  basePath : String
  deriving DecidableEq, Repr

/-- The function `NewDetector`. -/
def NewDetector (basePath : String) : Detector :=
  let basePath := if basePath = "" then "." else basePath
  { basePath := basePath }

/-! ## `detector.go`: the file system and git, as the detector sees them -/

/-- The part of an `os.FileInfo` that the detector reads. -/
structure FileInfo where
  Name : String
  IsDir : Bool
  deriving DecidableEq, Repr

/-- What `filepath.Walk` finds at a path: `os.Lstat` fails, or it is not a
directory, or it is a directory that cannot be listed, or a directory with
its entries in the order of the listing. -/
inductive WalkNode where
  | lstatErr
  | file (name : String)
  | dirErr (name : String)
  | dir (name : String) (children : List WalkNode)
  deriving Repr

/-- Whether the node is one for which `info.IsDir()` holds. -/
def WalkNode.IsDir : WalkNode → Bool
  | .dirErr _ => true
  | .dir _ _ => true
  | _ => false

/-- The two values other than `nil` that a callback of this file returns to
`filepath.Walk`: `filepath.SkipDir` and `filepath.SkipAll`. -/
inductive WalkErr where
  | SkipDir
  | SkipAll
  deriving DecidableEq, Repr

/-- The arguments of a `filepath.WalkFunc` apart from the path: a call with
an error, or a call with the file information and no error. -/
inductive WalkArg where
  | failure
  | entry (info : FileInfo)
  deriving DecidableEq, Repr

/-- A repository opened by `git.PlainOpen`: the short name of the reference
that `Head()` returns, and for each remote of `Remotes()` the URLs of its
configuration. -/
structure GitRepo where
  Head : Except GoError String
  Remotes : Except GoError (List (List String))

/-- The state of the world outside the program that the detector reads:
`filepath.Join`, `os.Stat` (`none` for an error), `os.ReadFile` (`none` for an
error), the tree that `filepath.Walk` finds from a root path, and
`git.PlainOpen`. -/
structure FileSystem where
  Join : String → String → String
  Stat : String → Option FileInfo
  ReadFile : String → Option String
  Tree : String → WalkNode
  PlainOpen : String → Except GoError GitRepo

section Walk

variable {σ : Type}

mutual
/-- The function `walk` of `path/filepath`: the callback on the node, then on
the entries of a directory, with the state `σ` of the callback passed along. -/
def walk (fn : σ → WalkArg → σ × Option WalkErr) : WalkNode → σ → σ × Option WalkErr
  | .lstatErr, s => fn s .failure
  | .file name, s => fn s (.entry { Name := name, IsDir := false })
  | .dirErr _, s => fn s .failure
  | .dir name children, s =>
    match fn s (.entry { Name := name, IsDir := true }) with
    | (s, some err1) => (s, some err1)
    | (s, none) => walkEntries fn children s
/-- The loop of `walk` over the entries of a directory: `SkipDir` from a
directory or from a failed `Lstat` goes on with the next entry, every other
error ends the loop. -/
def walkEntries (fn : σ → WalkArg → σ × Option WalkErr) :
    List WalkNode → σ → σ × Option WalkErr
  | [], s => (s, none)
  | c :: cs, s =>
    match walk fn c s with
    | (s, none) => walkEntries fn cs s
    | (s, some err) =>
      match c with
      | .lstatErr => if err ≠ .SkipDir then (s, some err) else walkEntries fn cs s
      | c => if !c.IsDir || err ≠ .SkipDir then (s, some err) else walkEntries fn cs s
end

/-- The function `filepath.Walk`: `SkipDir` and `SkipAll` at the top become `nil`. -/
def Walk (fn : σ → WalkArg → σ × Option WalkErr) (root : WalkNode) (s : σ) :
    σ × Option WalkErr :=
  match walk fn root s with
  | (s, err) => if err = some .SkipDir ∨ err = some .SkipAll then (s, none) else (s, err)

end Walk

/-- The function `strings.HasSuffix`. -/
def HasSuffix (s suffix : String) : Bool :=
  suffix.data.isSuffixOf s.data

/-- The function `strings.Contains`. -/
def Contains (s substr : String) : Bool :=
  s.data.tails.any (fun t => substr.data.isPrefixOf t)

/-! ## `detector.go`: the helper methods -/

/-- The method `fileExists`. -/
def Detector.fileExists (fs : FileSystem) (d : Detector) (name : String) : Bool :=
  let path := fs.Join d.basePath name
  (fs.Stat path).isSome

/-- The method `dirExists`. -/
def Detector.dirExists (fs : FileSystem) (d : Detector) (name : String) : Bool :=
  let path := fs.Join d.basePath name
  match fs.Stat path with
  | some info => info.IsDir
  | none => false

/-- The callback that `hasFilesWithExt` gives to `filepath.Walk`; the state is
the variable `found`. -/
def extWalkFunc (ext : String) (found : Bool) : WalkArg → Bool × Option WalkErr
  | .failure => (found, none)
  | .entry info =>
    if info.IsDir && GoMap.getD ignoredDirs info.Name false then (found, some .SkipDir)
    else if !info.IsDir && HasSuffix info.Name ext then (true, some .SkipAll)
    else (found, none)

/-- The method `hasFilesWithExt`. -/
def Detector.hasFilesWithExt (fs : FileSystem) (d : Detector) (ext : String)
    (dirs : List String) : Bool :=
  let searchDirs := if dirs.length = 0 then [d.basePath] else dirs
  searchDirs.any (fun dir =>
    let fullPath := fs.Join d.basePath dir
    (Walk (extWalkFunc ext) (fs.Tree fullPath) false).1)

/-- The method `hasFileContent`. -/
def Detector.hasFileContent (fs : FileSystem) (d : Detector) (filename content : String) : Bool :=
  let path := fs.Join d.basePath filename
  match fs.ReadFile path with
  | none => false
  | some data => Contains data content

/-! ## `detector.go`: the detection steps -/

/-- The orders in which the four `range` loops of `Detect` go through their
maps: the two loops of `detectLanguage`, the loop of `detectPlatform` and the
loop of `detectProjectType`. -/
structure RangeOrders where
  language : List Language
  secondary : List Language
  platform : List Platform
  projectType : List ProjectType

/-- The map `scores` of `detectLanguage` when its two loops start. -/
def Detector.languageScores (fs : FileSystem) (d : Detector) : List (Language × Int) :=
  let scores : List (Language × Int) := []
  -- Go detection
  let scores := if d.fileExists fs "go.mod" then GoMap.add scores LanguageGo 50 else scores
  let scores := if d.fileExists fs "go.sum" then GoMap.add scores LanguageGo 10 else scores
  let scores := if d.hasFilesWithExt fs ".go" [] then GoMap.add scores LanguageGo 30 else scores
  -- Node.js detection
  let scores := if d.fileExists fs "package.json" then GoMap.add scores LanguageNode 50 else scores
  let scores :=
    if d.fileExists fs "package-lock.json" || d.fileExists fs "yarn.lock" ||
        d.fileExists fs "pnpm-lock.yaml" then GoMap.add scores LanguageNode 10 else scores
  let scores :=
    if d.hasFilesWithExt fs ".js" [] || d.hasFilesWithExt fs ".ts" [] then
      GoMap.add scores LanguageNode 30 else scores
  -- Python detection
  let scores :=
    if d.fileExists fs "setup.py" || d.fileExists fs "pyproject.toml" then
      GoMap.add scores LanguagePython 50 else scores
  let scores :=
    if d.fileExists fs "requirements.txt" || d.fileExists fs "Pipfile" then
      GoMap.add scores LanguagePython 10 else scores
  let scores := if d.hasFilesWithExt fs ".py" [] then GoMap.add scores LanguagePython 30 else scores
  -- Rust detection
  let scores := if d.fileExists fs "Cargo.toml" then GoMap.add scores LanguageRust 50 else scores
  let scores := if d.fileExists fs "Cargo.lock" then GoMap.add scores LanguageRust 10 else scores
  let scores := if d.hasFilesWithExt fs ".rs" [] then GoMap.add scores LanguageRust 30 else scores
  -- Ruby detection
  let scores := if d.fileExists fs "Gemfile" then GoMap.add scores LanguageRuby 50 else scores
  let scores := if d.fileExists fs "Gemfile.lock" then GoMap.add scores LanguageRuby 10 else scores
  let scores := if d.hasFilesWithExt fs ".rb" [] then GoMap.add scores LanguageRuby 30 else scores
  scores

/-- The method `detectLanguage`; `ord` and `ord2` are the orders of its two
`range` loops. The error it returns is always `nil`. -/
def Detector.detectLanguage (fs : FileSystem) (d : Detector) (ord ord2 : List Language)
    (detection : Detection) : Detection × Option GoError :=
  let scores := d.languageScores fs
  -- Find language with highest score
  let detection :=
    (GoMap.highest (GoMap.range scores ord)
      (fun det lang score => { det with Language := lang, LanguageConfidence := score })
      detection).2
  -- Collect secondary languages (score >= 40)
  let detection :=
    (GoMap.range scores ord2).foldl
      (fun det e =>
        if e.1 ≠ det.Language ∧ e.2 ≥ 40 then
          { det with SecondaryLanguages := det.SecondaryLanguages ++ [e.1] }
        else det)
      detection
  (detection, none)

/-- The map `scores` of `detectPlatform` when its loop starts. -/
def Detector.platformScores (fs : FileSystem) (d : Detector) : List (Platform × Int) :=
  let scores : List (Platform × Int) := []
  -- Docker detection
  let scores := if d.fileExists fs "Dockerfile" then GoMap.add scores PlatformDocker 50 else scores
  let scores :=
    if d.fileExists fs "docker-compose.yml" || d.fileExists fs "docker-compose.yaml" then
      GoMap.add scores PlatformDocker 20 else scores
  let scores := if d.fileExists fs ".dockerignore" then GoMap.add scores PlatformDocker 10 else scores
  -- Kubernetes detection
  let scores :=
    if d.dirExists fs "k8s" || d.dirExists fs "kubernetes" then
      GoMap.add scores PlatformKubernetes 50 else scores
  let scores :=
    if d.hasFilesWithExt fs ".yaml" ["k8s", "kubernetes", "manifests"] then
      GoMap.add scores PlatformKubernetes 20 else scores
  -- Serverless detection
  let scores :=
    if d.fileExists fs "serverless.yml" || d.fileExists fs "serverless.yaml" then
      GoMap.add scores PlatformServerless 50 else scores
  let scores :=
    if d.fileExists fs "netlify.toml" || d.fileExists fs "vercel.json" then
      GoMap.add scores PlatformServerless 30 else scores
  scores

/-- The method `detectPlatform`; `ord` is the order of its `range` loop. The
error it returns is always `nil`. -/
def Detector.detectPlatform (fs : FileSystem) (d : Detector) (ord : List Platform)
    (detection : Detection) : Detection × Option GoError :=
  let scores := d.platformScores fs
  let detection :=
    if d.fileExists fs "Dockerfile" then { detection with HasDockerfile := true } else detection
  let detection :=
    if d.dirExists fs "k8s" || d.dirExists fs "kubernetes" then
      { detection with HasKubernetesConfig := true } else detection
  -- Find platform with highest score
  let detection :=
    (GoMap.highest (GoMap.range scores ord)
      (fun det platform score => { det with Platform := platform, PlatformConfidence := score })
      detection).2
  (detection, none)

/-- The map `scores` of `detectProjectType` when its loop starts; `detection`
is the detection the method is called with. -/
def Detector.projectTypeScores (fs : FileSystem) (d : Detector) (detection : Detection) :
    List (ProjectType × Int) :=
  let scores : List (ProjectType × Int) := []
  -- CLI tool detection
  let scores :=
    if d.dirExists fs "cmd" && detection.Language = LanguageGo then
      GoMap.add scores ProjectTypeCLI 40 else scores
  let scores :=
    if d.fileExists fs "main.go" || d.fileExists fs "cmd/main.go" then
      GoMap.add scores ProjectTypeCLI 30 else scores
  -- Library detection
  let scores :=
    if detection.Language = LanguageGo && !d.fileExists fs "cmd/main.go" &&
        !d.fileExists fs "main.go" then
      GoMap.add scores ProjectTypeLibrary 40 else scores
  let scores :=
    if detection.Language = LanguageNode &&
        d.hasFileContent fs "package.json" "\"type\": \"library\"" then
      GoMap.add scores ProjectTypeLibrary 40 else scores
  -- API service detection
  let scores :=
    if d.dirExists fs "api" || d.dirExists fs "routes" || d.dirExists fs "controllers" then
      GoMap.add scores ProjectTypeAPI 40 else scores
  let scores :=
    if d.hasFileContent fs "package.json" "express" ||
        d.hasFileContent fs "package.json" "fastify" then
      GoMap.add scores ProjectTypeAPI 30 else scores
  -- SaaS detection
  let scores :=
    if d.dirExists fs "frontend" && d.dirExists fs "backend" then
      GoMap.add scores ProjectTypeSaaS 40 else scores
  let scores :=
    if d.dirExists fs "web" || d.dirExists fs "ui" || d.dirExists fs "client" then
      GoMap.add scores ProjectTypeSaaS 30 else scores
  -- Monorepo detection
  let scores :=
    if d.dirExists fs "packages" || d.dirExists fs "apps" then
      GoMap.add scores ProjectTypeMonorepo 50 else scores
  let scores :=
    if d.fileExists fs "lerna.json" || d.fileExists fs "pnpm-workspace.yaml" then
      GoMap.add scores ProjectTypeMonorepo 30 else scores
  -- Container/infrastructure detection
  let scores :=
    if detection.HasDockerfile && detection.HasKubernetesConfig then
      GoMap.add scores ProjectTypeContainer 50 else scores
  -- Open source detection (presence of common OSS files)
  let opensourceScore : Int := 0
  let opensourceScore :=
    if d.fileExists fs "LICENSE" || d.fileExists fs "LICENSE.md" then opensourceScore + 20
    else opensourceScore
  let opensourceScore :=
    if d.fileExists fs "CONTRIBUTING.md" then opensourceScore + 15 else opensourceScore
  let opensourceScore :=
    if d.fileExists fs "CODE_OF_CONDUCT.md" then opensourceScore + 15 else opensourceScore
  let scores :=
    if opensourceScore ≥ 20 then GoMap.add scores ProjectTypeOpenSource opensourceScore
    else scores
  scores

/-- The method `detectProjectType`; `ord` is the order of its `range` loop.
The error it returns is always `nil`. -/
def Detector.detectProjectType (fs : FileSystem) (d : Detector) (ord : List ProjectType)
    (detection : Detection) : Detection × Option GoError :=
  let scores := d.projectTypeScores fs detection
  let detection :=
    if d.dirExists fs "packages" || d.dirExists fs "apps" then
      { detection with IsMonorepo := true } else detection
  let detection :=
    if d.fileExists fs "lerna.json" || d.fileExists fs "pnpm-workspace.yaml" then
      { detection with IsMonorepo := true } else detection
  -- Find type with highest score
  let detection :=
    (GoMap.highest (GoMap.range scores ord)
      (fun det projectType score =>
        { det with ProjectType := projectType, TypeConfidence := score })
      detection).2
  -- Default to CLI if we have high confidence in a compiled language
  let detection :=
    if detection.TypeConfidence < 30 ∧
        (detection.Language = LanguageGo ∨ detection.Language = LanguageRust) then
      { detection with ProjectType := ProjectTypeCLI, TypeConfidence := 50 }
    else detection
  (detection, none)

/-- The method `detectGit`: the error of `git.PlainOpen` is returned with
the detection as it was. -/
def Detector.detectGit (fs : FileSystem) (d : Detector) (detection : Detection) :
    Detection × Option GoError :=
  match fs.PlainOpen d.basePath with
  | .error err => (detection, some err)
  | .ok repo =>
    -- Get current branch
    let detection :=
      match repo.Head with
      | .ok head => { detection with GitBranch := head }
      | .error _ => detection
    -- Get remote URL
    let detection :=
      match repo.Remotes with
      | .ok (urls :: _) =>
        (match urls with
         | url :: _ => { detection with GitRepository := url }
         | [] => detection)
      | _ => detection
    (detection, none)

/-- The method `detectTools`. The error it returns is always `nil`. -/
def Detector.detectTools (fs : FileSystem) (d : Detector) (detection : Detection) :
    Detection × Option GoError :=
  -- Detect CI/CD
  let detection :=
    if d.dirExists fs ".github/workflows" then
      { detection with HasCI := true, CIProvider := "github-actions" }
    else if d.fileExists fs ".gitlab-ci.yml" then
      { detection with HasCI := true, CIProvider := "gitlab-ci" }
    else if d.fileExists fs ".circleci/config.yml" then
      { detection with HasCI := true, CIProvider := "circleci" }
    else detection
  -- Detect package manager
  let detection :=
    if detection.Language = LanguageGo then
      let detection := { detection with PackageManager := "go modules" }
      if d.fileExists fs "Makefile" then { detection with BuildTool := "make" } else detection
    else if detection.Language = LanguageNode then
      if d.fileExists fs "pnpm-lock.yaml" then { detection with PackageManager := "pnpm" }
      else if d.fileExists fs "yarn.lock" then { detection with PackageManager := "yarn" }
      else { detection with PackageManager := "npm" }
    else if detection.Language = LanguagePython then
      if d.fileExists fs "poetry.lock" then { detection with PackageManager := "poetry" }
      else if d.fileExists fs "Pipfile" then { detection with PackageManager := "pipenv" }
      else { detection with PackageManager := "pip" }
    else if detection.Language = LanguageRust then
      { detection with PackageManager := "cargo", BuildTool := "cargo" }
    else if detection.Language = LanguageRuby then
      { detection with PackageManager := "bundler" }
    else detection
  (detection, none)

/-- The method `suggestTemplate`. -/
def Detector.suggestTemplate (detection : Detection) : Detection :=
  -- Priority: ProjectType > Language
  if detection.IsMonorepo then { detection with SuggestedTemplate := "monorepo" }
  else if detection.ProjectType = ProjectTypeContainer then
    { detection with SuggestedTemplate := "container" }
  -- Combine language and project type
  else if detection.Language = LanguageGo then
    if detection.ProjectType = ProjectTypeAPI then
      { detection with SuggestedTemplate := "saas-api" }
    else if detection.ProjectType = ProjectTypeSaaS then
      { detection with SuggestedTemplate := "saas-web" }
    else { detection with SuggestedTemplate := "opensource-go" }
  else if detection.Language = LanguageNode then
    if detection.ProjectType = ProjectTypeSaaS ∨ detection.ProjectType = ProjectTypeAPI then
      { detection with SuggestedTemplate := "saas-web" }
    else { detection with SuggestedTemplate := "opensource-node" }
  else if detection.Language = LanguagePython then
    { detection with SuggestedTemplate := "opensource-python" }
  else if detection.Language = LanguageRust then
    { detection with SuggestedTemplate := "opensource-rust" }
  else { detection with SuggestedTemplate := "opensource-go" }

/-- The detection that `Detect` starts from. -/
def initialDetection : Detection :=
  { Language := LanguageUnknown, Platform := PlatformNative, ProjectType := ProjectTypeUnknown }

/-- The method `Detect`: the detection (`none` for `nil`) and the error. -/
def Detector.Detect (fs : FileSystem) (d : Detector) (ord : RangeOrders) :
    Option Detection × Option GoError :=
  let detection := initialDetection
  -- Detect language
  match d.detectLanguage fs ord.language ord.secondary detection with
  | (_, some err) => (none, some err)
  | (detection, none) =>
  -- Detect platform
  match d.detectPlatform fs ord.platform detection with
  | (_, some err) => (none, some err)
  | (detection, none) =>
  -- Detect project type
  match d.detectProjectType fs ord.projectType detection with
  | (_, some err) => (none, some err)
  | (detection, none) =>
  -- Detect git info: git detection is optional, don't fail on error
  let detection := (d.detectGit fs detection).1
  -- Detect tools
  match d.detectTools fs detection with
  | (_, some err) => (none, some err)
  | (detection, none) =>
  -- Suggest template
  let detection := Detector.suggestTemplate detection
  (some detection, none)

/-! ## Notions used to state the properties of the handlers -/

/-- The error of an `Except`, `none` when there is a value. -/
def errorOf {α : Type} : Except GoError α → Option GoError
  | .error err => some err
  | .ok _ => none

/-- Whether `manager.NewManager()` returns without error. -/
def Env.constructs (env : Env) : Bool :=
  match env.NewManager with
  | .error _ => false
  | .ok _ => true

/-- The error that the manager package gives to a handler that constructs the
manager and then invokes `op`: the error of the construction, or else the
error of `op`. -/
def managerError (env : Env) (op : Manager → Option GoError) : Option GoError :=
  match env.NewManager with
  | .error err => some err
  | .ok mgr => op mgr

/-- The error of the listing operation that `runPluginList` invokes for the
two flags. -/
def listingError (available refresh : Bool) (mgr : Manager) : Option GoError :=
  if available then errorOf (mgr.ListAvailable refresh) else errorOf mgr.ListInstalled

/-- A handler returning `ret` reports the error `underlying` of the manager:
`ret` is not `nil` exactly when `underlying` is not, and then `ret` wraps it. -/
def Reports (ret underlying : Option GoError) : Prop :=
  (ret ≠ none ↔ underlying ≠ none) ∧
    ∀ err, underlying = some err → ∃ w, ret = some w ∧ w.Unwrap = some err

/-- The manager operations invoked in a run, in order. -/
def Run.operations (r : Run) : List ManagerCall :=
  r.calls.filter ManagerCall.isOperation

/-- Whether the call is `Enable`. -/
def ManagerCall.isEnable : ManagerCall → Bool
  | .Enable _ => true
  | _ => false

/-- An environment in which `manager.NewManager()` fails. -/
def failingEnv : Env :=
  { NewManager := .error (.base "home directory not found"),
    quote := fun s => "\"" ++ s ++ "\"",
    printSuccess := fun s => [s] }

/-! ## Notions used to state the properties of the listings -/

/-- The category under which `displayAvailablePlugins` files an entry: its
own, or "other" when it has none. -/
def categoryOf (entry : PluginListEntry) : String :=
  if entry.Info.Category = "" then "other" else entry.Info.Category

/-- What `displayAvailablePlugins` prints for a category with the entries
`plugins`: the title, a line for each entry, an empty line. -/
def sectionLines (category : String) (plugins : List PluginListEntry) : List String :=
  [GoMap.getD categoryTitles category ""] ++ plugins.map availableLine ++ [""]

/-- The sections of a listing of `entries`: each category of `categoryNames`,
in that order, with the entries filed under it in the order of `entries`, the
categories without an entry left out. -/
def printedSections (entries : List PluginListEntry) : List (String × List PluginListEntry) :=
  (categoryNames.map (fun c => (c, entries.filter (fun e => categoryOf e = c)))).filter
    (fun s => s.2 ≠ [])

/-- The comparison `a <= b` of Go strings. -/
def nameLE (a b : String) : Prop := a.data ≤ b.data

instance (a b : String) : Decidable (nameLE a b) := by
  unfold nameLE; infer_instance

/-- An entry of the registry, not installed. -/
def zetaEntry : PluginListEntry :=
  { Info := { Name := "zeta", Version := "1.0.0", Description := "Zeta host", Category := "vcs" },
    Installed := none, Status := .StatusNotInstalled }

/-- An entry of the registry, not installed. -/
def alphaEntry : PluginListEntry :=
  { Info := { Name := "alpha", Version := "1.0.0", Description := "Alpha host",
              Category := "vcs" },
    Installed := none, Status := .StatusNotInstalled }

/-- An installed and enabled entry, at the version of the registry. -/
def dockerEntry : PluginListEntry :=
  { Info := { Name := "docker", Version := "1.2.0", Description := "Docker images",
              Category := "container" },
    Installed := some { Name := "docker", Version := "1.2.0" },
    Status := .StatusEnabled }

/-- An installed entry, not enabled, whose record is behind the registry. -/
def githubEntry : PluginListEntry :=
  { Info := { Name := "github", Version := "2.1.0", Description := "GitHub releases",
              Category := "vcs" },
    Installed := some { Name := "github", Version := "2.0.1" },
    Status := .StatusInstalled }

/-- An installed entry without a category, behind the registry. -/
def slackEntry : PluginListEntry :=
  { Info := { Name := "slack", Version := "1.3.0", Description := "Slack messages",
              Category := "" },
    Installed := some { Name := "slack", Version := "1.2.0" },
    Status := .StatusUpdateAvailable }

/-! ## Notions used to state the properties of the detection -/

/-- The five languages that `detectLanguage` scores. -/
def languages : List Language :=
  [LanguageGo, LanguageNode, LanguagePython, LanguageRust, LanguageRuby]

/-- The platforms that `detectPlatform` scores. -/
def platforms : List Platform :=
  [PlatformDocker, PlatformKubernetes, PlatformServerless]

/-- The project types that `detectProjectType` scores. -/
def projectTypes : List ProjectType :=
  [ProjectTypeCLI, ProjectTypeLibrary, ProjectTypeAPI, ProjectTypeSaaS, ProjectTypeMonorepo,
   ProjectTypeContainer, ProjectTypeOpenSource]

/-- The three confidence scores of a detection lie between 0 and 100. -/
def Detection.Confident (det : Detection) : Prop :=
  0 ≤ det.LanguageConfidence ∧ det.LanguageConfidence ≤ 100 ∧
    0 ≤ det.PlatformConfidence ∧ det.PlatformConfidence ≤ 100 ∧
    0 ≤ det.TypeConfidence ∧ det.TypeConfidence ≤ 100

instance (det : Detection) : Decidable det.Confident := by
  unfold Detection.Confident; infer_instance

/-- The score of a language: the read `scores[l]` of the map of
`detectLanguage`, zero for a language without an entry. -/
def Detector.languageScore (fs : FileSystem) (d : Detector) (l : Language) : Int :=
  GoMap.getD (d.languageScores fs) l 0

/-- A Go module in the directory ".", with `go.mod` and `main.go`, that is not
a git repository. -/
def goProject : FileSystem :=
  { Join := fun a b => if a = "." then b else a ++ "/" ++ b,
    Stat := fun path =>
      if path = "." then some { Name := ".", IsDir := true }
      else if path = "go.mod" ∨ path = "main.go" then some { Name := path, IsDir := false }
      else none,
    ReadFile := fun path =>
      if path = "go.mod" then some "module example.com/tool\n"
      else if path = "main.go" then some "package main\n"
      else none,
    Tree := fun path =>
      if path = "." then .dir "." [.file "go.mod", .file "main.go"] else .lstatErr,
    PlainOpen := fun _ => .error (.base "repository does not exist") }

/-- A project with a Go module and a Node package of the same score. -/
def polyglotProject : FileSystem :=
  { Join := fun a b => if a = "." then b else a ++ "/" ++ b,
    Stat := fun path =>
      if path = "." then some { Name := ".", IsDir := true }
      else if path = "go.mod" ∨ path = "main.go" ∨ path = "package.json" ∨ path = "index.js" then
        some { Name := path, IsDir := false }
      else none,
    ReadFile := fun _ => none,
    Tree := fun path =>
      if path = "." then
        .dir "." [.file "go.mod", .file "index.js", .file "main.go", .file "package.json"]
      else .lstatErr,
    PlainOpen := fun _ => .error (.base "repository does not exist") }

/-- Orders of iteration that leave every map in the order of its entries. -/
def plainOrders : RangeOrders :=
  { language := [], secondary := [], platform := [], projectType := [] }

/-! ## Notions used to state the property of the search for files -/

mutual
/-- A file to count for the extension `ext` is reachable in the tree `node`:
the node is a non-directory entry whose name ends with `ext`, or it is a
directory not named in `ignoredDirs` with such a file reachable in one of its
entries. Nothing is reachable where `Lstat` fails or a directory cannot be
listed. -/
def reachable (ext : String) : WalkNode → Bool
  | .lstatErr => false
  | .file name => HasSuffix name ext
  | .dirErr _ => false
  | .dir name children => !GoMap.getD ignoredDirs name false && reachableAmong ext children
/-- A file to count for the extension `ext` is reachable in one of the trees. -/
def reachableAmong (ext : String) : List WalkNode → Bool
  | [] => false
  | c :: cs => reachable ext c || reachableAmong ext cs
end

/-- The same in the words of the specification: some non-directory entry
whose name ends with `ext` is reachable from the node through directories none
of which is named in `ignoredDirs`, the node itself counted among them. -/
inductive Reaches (ext : String) : WalkNode → Prop where
  | file (name : String) : HasSuffix name ext = true → Reaches ext (.file name)
  | dir (name : String) (children : List WalkNode) (c : WalkNode) :
      GoMap.getD ignoredDirs name false = false → c ∈ children → Reaches ext c →
      Reaches ext (.dir name children)

/-- A project in "." whose only Go file lies under `vendor`. -/
def vendoredProject : FileSystem :=
  { Join := fun a b => if a = "." then b else a ++ "/" ++ b,
    Stat := fun path =>
      if path = "." ∨ path = "vendor" ∨ path = "docs" then some { Name := path, IsDir := true }
      else if path = "README.md" then some { Name := path, IsDir := false }
      else none,
    ReadFile := fun _ => none,
    Tree := fun path =>
      if path = "." then
        .dir "." [.file "README.md", .dir "docs" [.file "guide.md"],
                  .dir "vendor" [.dir "lib" [.file "lib.go"]]]
      else .lstatErr,
    PlainOpen := fun _ => .error (.base "repository does not exist") }

/-! ## Notions used to state the properties of the template -/

/-- A workspace in "." with a `packages` directory and a `package.json`,
not a git repository. -/
def workspaceProject : FileSystem :=
  { Join := fun a b => if a = "." then b else a ++ "/" ++ b,
    Stat := fun path =>
      if path = "." ∨ path = "packages" then some { Name := path, IsDir := true }
      else if path = "package.json" then some { Name := path, IsDir := false }
      else none,
    ReadFile := fun path =>
      if path = "package.json" then some "\x7b \"name\": \"workspace\" \x7d" else none,
    Tree := fun path =>
      if path = "." then .dir "." [.file "package.json", .dir "packages" []] else .lstatErr,
    PlainOpen := fun _ => .error (.base "repository does not exist") }

/-- A project in "." with a `Dockerfile`, a `k8s` directory and a `packages`
directory: the project types container and monorepo both score 50. -/
def containerWorkspace : FileSystem :=
  { Join := fun a b => if a = "." then b else a ++ "/" ++ b,
    Stat := fun path =>
      if path = "." ∨ path = "packages" ∨ path = "k8s" then some { Name := path, IsDir := true }
      else if path = "Dockerfile" then some { Name := path, IsDir := false }
      else none,
    ReadFile := fun _ => none,
    Tree := fun path =>
      if path = "." then .dir "." [.file "Dockerfile", .dir "k8s" [], .dir "packages" []]
      else if path = "k8s" then .dir "k8s" []
      else .lstatErr,
    PlainOpen := fun _ => .error (.base "repository does not exist") }

/-- Orders of iteration in which the project type container comes first. -/
def containerFirst : RangeOrders :=
  { language := [], secondary := [], platform := [], projectType := [ProjectTypeContainer] }

/-- A detection of a container project in a monorepo. -/
def containerInMonorepo : Detection :=
  { Language := LanguageGo, LanguageConfidence := 80, Platform := PlatformDocker,
    PlatformConfidence := 50, ProjectType := ProjectTypeContainer, TypeConfidence := 50,
    IsMonorepo := true, HasDockerfile := true, HasKubernetesConfig := true }

/-- The statements of `detectProjectType` that set `IsMonorepo`. -/
def Detector.monorepoFlag (fs : FileSystem) (d : Detector) (detection : Detection) : Detection :=
  let detection :=
    if d.dirExists fs "packages" || d.dirExists fs "apps" then
      { detection with IsMonorepo := true } else detection
  let detection :=
    if d.fileExists fs "lerna.json" || d.fileExists fs "pnpm-workspace.yaml" then
      { detection with IsMonorepo := true } else detection
  detection

/-- The last statement of `detectProjectType`: the default to a command line
tool for Go and Rust. -/
def defaultToCLI (detection : Detection) : Detection :=
  if detection.TypeConfidence < 30 ∧
      (detection.Language = LanguageGo ∨ detection.Language = LanguageRust) then
    { detection with ProjectType := ProjectTypeCLI, TypeConfidence := 50 }
  else detection

/-- A detection of a Rust container project outside a monorepo. -/
def containerAlone : Detection :=
  { Language := LanguageRust, LanguageConfidence := 60, Platform := PlatformDocker,
    PlatformConfidence := 50, ProjectType := ProjectTypeContainer, TypeConfidence := 50,
    HasDockerfile := true, HasKubernetesConfig := true }

/-! # Properties -/

/-! ## The handlers and the manager -/

theorem reports_nil : Reports none none := by
  simp [Reports]

theorem reports_errorf (text : String) (err : GoError) :
    Reports (some (Errorf text err)) (some err) := by
  simp [Reports, Errorf, GoError.Unwrap]

/-- C1: each of the five handlers returns an error that is not nil exactly
when the construction of the manager, or else the manager operation it
invokes, returns an error, and the error it returns wraps that one; with no
such error it returns nil. The four handlers that take a name are run on a
non-empty argument list, as `cobra.ExactArgs(1)` makes sure. -/
theorem handlers_report_manager_error (env : Env) (available refresh : Bool)
    (args : List String) (name : String) (rest : List String) :
    Reports (runPluginList env available refresh args).err
        (managerError env (listingError available refresh)) ∧
      (∃ r, runPluginInstall env (name :: rest) = some r ∧
        Reports r.err (managerError env (fun mgr => mgr.Install name))) ∧
      (∃ r, runPluginUninstall env (name :: rest) = some r ∧
        Reports r.err (managerError env (fun mgr => mgr.Uninstall name))) ∧
      (∃ r, runPluginEnable env (name :: rest) = some r ∧
        Reports r.err (managerError env (fun mgr => mgr.Enable name))) ∧
      (∃ r, runPluginDisable env (name :: rest) = some r ∧
        Reports r.err (managerError env (fun mgr => mgr.Disable name))) := by
  refine ⟨?_, ?_, ?_, ?_, ?_⟩
  · unfold runPluginList managerError listingError
    cases env.NewManager with
    | error err => exact reports_errorf _ err
    | ok mgr =>
      cases available with
      | true =>
        cases h : mgr.ListAvailable refresh with
        | error err => simpa [errorOf, h] using reports_errorf _ err
        | ok entries => simpa [errorOf, h] using reports_nil
      | false =>
        cases h : mgr.ListInstalled with
        | error err => simpa [errorOf, h] using reports_errorf _ err
        | ok entries => simpa [errorOf, h] using reports_nil
  · simp only [runPluginInstall, managerError]
    cases env.NewManager with
    | error err => exact ⟨_, rfl, reports_errorf _ err⟩
    | ok mgr =>
      dsimp only
      cases mgr.Install name with
      | some err => exact ⟨_, rfl, reports_errorf _ err⟩
      | none => exact ⟨_, rfl, reports_nil⟩
  · simp only [runPluginUninstall, managerError]
    cases env.NewManager with
    | error err => exact ⟨_, rfl, reports_errorf _ err⟩
    | ok mgr =>
      dsimp only
      cases mgr.Uninstall name with
      | some err => exact ⟨_, rfl, reports_errorf _ err⟩
      | none => exact ⟨_, rfl, reports_nil⟩
  · simp only [runPluginEnable, managerError]
    cases env.NewManager with
    | error err => exact ⟨_, rfl, reports_errorf _ err⟩
    | ok mgr =>
      dsimp only
      cases mgr.Enable name with
      | some err => exact ⟨_, rfl, reports_errorf _ err⟩
      | none => exact ⟨_, rfl, reports_nil⟩
  · simp only [runPluginDisable, managerError]
    cases env.NewManager with
    | error err => exact ⟨_, rfl, reports_errorf _ err⟩
    | ok mgr =>
      dsimp only
      cases mgr.Disable name with
      | some err => exact ⟨_, rfl, reports_errorf _ err⟩
      | none => exact ⟨_, rfl, reports_nil⟩

/-- C2, refuted as stated: when `manager.NewManager()` fails, each of the four
handlers run on the one name "docker" returns before it invokes any manager
operation, so not exactly one. -/
theorem name_handlers_invoke_nothing_without_manager :
    ((runPluginInstall failingEnv ["docker"]).map Run.operations = some [] ∧
      (runPluginUninstall failingEnv ["docker"]).map Run.operations = some [] ∧
      (runPluginEnable failingEnv ["docker"]).map Run.operations = some [] ∧
      (runPluginDisable failingEnv ["docker"]).map Run.operations = some []) ∧
    (runPluginInstall failingEnv ["docker"]).map Run.operations ≠
      some [ManagerCall.Install "docker"] := by
  decide

/-- C2, amended: for every argument list of exactly one name, each of
`runPluginInstall`, `runPluginUninstall`, `runPluginEnable` and
`runPluginDisable` invokes, when the manager is constructed, exactly one
manager operation (`Install`, `Uninstall`, `Enable`, `Disable` respectively),
once and with that name, and invokes no manager operation when the
construction fails; `runPluginInstall` never calls `Enable`. -/
theorem name_handlers_invoke_one_operation (env : Env) (name : String) :
    (runPluginInstall env [name]).map Run.operations =
        some (if env.constructs then [ManagerCall.Install name] else []) ∧
      (runPluginUninstall env [name]).map Run.operations =
        some (if env.constructs then [ManagerCall.Uninstall name] else []) ∧
      (runPluginEnable env [name]).map Run.operations =
        some (if env.constructs then [ManagerCall.Enable name] else []) ∧
      (runPluginDisable env [name]).map Run.operations =
        some (if env.constructs then [ManagerCall.Disable name] else []) ∧
      (runPluginInstall env [name]).map (fun r => r.calls.any ManagerCall.isEnable) =
        some false := by
  refine ⟨?_, ?_, ?_, ?_, ?_⟩
  · obtain ⟨newManager, quote, printSuccess⟩ := env
    cases newManager with
    | error err => rfl
    | ok mgr => simp only [runPluginInstall, Env.constructs]; cases mgr.Install name <;> rfl
  · obtain ⟨newManager, quote, printSuccess⟩ := env
    cases newManager with
    | error err => rfl
    | ok mgr => simp only [runPluginUninstall, Env.constructs]; cases mgr.Uninstall name <;> rfl
  · obtain ⟨newManager, quote, printSuccess⟩ := env
    cases newManager with
    | error err => rfl
    | ok mgr => simp only [runPluginEnable, Env.constructs]; cases mgr.Enable name <;> rfl
  · obtain ⟨newManager, quote, printSuccess⟩ := env
    cases newManager with
    | error err => rfl
    | ok mgr => simp only [runPluginDisable, Env.constructs]; cases mgr.Disable name <;> rfl
  · obtain ⟨newManager, quote, printSuccess⟩ := env
    cases newManager with
    | error err => rfl
    | ok mgr => simp only [runPluginInstall]; cases mgr.Install name <;> rfl

/-- C3, refuted as stated: when `manager.NewManager()` fails, `runPluginList`
returns before it calls a listing operation, with `--available` set or not. -/
theorem list_invokes_nothing_without_manager :
    (runPluginList failingEnv true false []).operations = [] ∧
      (runPluginList failingEnv false false []).operations = [] ∧
      (runPluginList failingEnv false false []).operations ≠ [ManagerCall.ListInstalled] := by
  decide

/-- C3, amended: for every value of the two flags, `runPluginList` calls, when
the manager is constructed, exactly one listing operation, `ListAvailable`
with the `--refresh` flag as its argument if `--available` is set and
`ListInstalled` otherwise, and calls no listing operation when the
construction fails. -/
theorem list_invokes_one_listing (env : Env) (available refresh : Bool) (args : List String) :
    (runPluginList env available refresh args).operations =
      if env.constructs then
        [if available then ManagerCall.ListAvailable refresh else ManagerCall.ListInstalled]
      else [] := by
  obtain ⟨newManager, quote, printSuccess⟩ := env
  cases newManager with
  | error err => rfl
  | ok mgr =>
    cases available with
    | true =>
      simp only [runPluginList, Env.constructs, if_true]
      cases mgr.ListAvailable refresh <;> rfl
    | false =>
      simp only [runPluginList, Env.constructs]
      cases mgr.ListInstalled <;> rfl

/-! ## Go maps -/

namespace GoMap

variable {K V : Type} [DecidableEq K]

theorem get?_set (m : List (K × V)) (k : K) (v : V) (k' : K) :
    get? (set m k v) k' = if k = k' then some v else get? m k' := by
  induction m with
  | nil => simp [set, get?]
  | cons p m ih =>
    obtain ⟨k0, v0⟩ := p
    by_cases h0 : k0 = k
    · subst h0
      by_cases h1 : k0 = k' <;> simp [set, get?, h1]
    · by_cases h1 : k0 = k'
      · subst h1
        have : ¬ k = k0 := fun h => h0 h.symm
        simp [set, get?, h0, this]
      · simp [set, get?, h0, h1, ih]

theorem getD_set (m : List (K × V)) (k : K) (v : V) (k' : K) (z : V) :
    getD (set m k v) k' z = if k = k' then v else getD m k' z := by
  unfold getD
  rw [get?_set]
  split <;> rfl

end GoMap

/-! ## The listings -/

theorem groupByCategory_fold (entries : List PluginListEntry)
    (m : List (String × List PluginListEntry)) (c : String) :
    GoMap.getD
        (entries.foldl
          (fun categories entry =>
            let category := if entry.Info.Category = "" then "other" else entry.Info.Category
            GoMap.set categories category (GoMap.getD categories category [] ++ [entry]))
          m) c [] =
      GoMap.getD m c [] ++ entries.filter (fun e => categoryOf e = c) := by
  induction entries generalizing m with
  | nil => simp
  | cons e es ih =>
    rw [List.foldl_cons, ih, GoMap.getD_set]
    by_cases h : categoryOf e = c
    · have h' : (if e.Info.Category = "" then "other" else e.Info.Category) = c := h
      simp [h, h']
    · have h' : ¬ (if e.Info.Category = "" then "other" else e.Info.Category) = c := h
      simp [h, h']

theorem getD_groupByCategory (entries : List PluginListEntry) (c : String) :
    GoMap.getD (groupByCategory entries) c [] = entries.filter (fun e => categoryOf e = c) := by
  unfold groupByCategory
  rw [groupByCategory_fold]
  simp [GoMap.getD, GoMap.get?]

theorem availableSection_eq (categories : List (String × List PluginListEntry)) (c : String) :
    availableSection categories c =
      if GoMap.getD categories c [] = [] then []
      else sectionLines c (GoMap.getD categories c []) := by
  unfold availableSection GoMap.getD sectionLines
  cases h : GoMap.get? categories c with
  | none => simp
  | some plugins =>
    by_cases hp : plugins = []
    · simp [hp]
    · simp [hp, GoMap.getD]

theorem displayAvailablePlugins_eq (entries : List PluginListEntry) :
    displayAvailablePlugins entries =
      ["Available Plugins:", ""] ++
        (categoryNames.map (fun c =>
          if entries.filter (fun e => categoryOf e = c) = [] then []
          else sectionLines c (entries.filter (fun e => categoryOf e = c)))).flatten ++
        ["Use 'release-pilot plugin install <name>' to install a plugin.",
         "Use 'release-pilot plugin info <name>' for more details."] := by
  have hsec : availableSection (groupByCategory entries) = fun c =>
      if entries.filter (fun e => categoryOf e = c) = [] then []
      else sectionLines c (entries.filter (fun e => categoryOf e = c)) := by
    funext c
    rw [availableSection_eq, getD_groupByCategory]
  unfold displayAvailablePlugins
  simp only [hsec]

theorem flatten_sections {α : Type} [DecidableEq α] (f : String → List α) (g : String → List α → List String)
    (cs : List String) :
    (cs.map (fun c => if f c = [] then [] else g c (f c))).flatten =
      (((cs.map (fun c => (c, f c))).filter (fun s => s.2 ≠ [])).map
        (fun s => g s.1 s.2)).flatten := by
  induction cs with
  | nil => rfl
  | cons c cs ih =>
    by_cases h : f c = []
    · simp [List.filter_cons, h, ih]
    · simp [List.filter_cons, h, ih]

theorem flatten_nonempty {α : Type} [DecidableEq α] (l : List (String × List α)) :
    ((l.filter (fun s => s.2 ≠ [])).map (fun s => s.2)).flatten =
      (l.map (fun s => s.2)).flatten := by
  induction l with
  | nil => rfl
  | cons s l ih =>
    rw [List.filter_cons]
    by_cases h : s.2 = []
    · have hd : decide (s.2 ≠ []) = false := by simp [h]
      rw [hd]
      simp only [Bool.false_eq_true, if_false, List.map_cons, List.flatten_cons]
      rw [ih, h, List.nil_append]
    · have hd : decide (s.2 ≠ []) = true := by simp [h]
      rw [hd]
      simp only [if_true, List.map_cons, List.flatten_cons]
      rw [ih]

theorem filter_split_perm {α : Type} (f : α → String) (c : String) (cs : List String)
    (hc : c ∉ cs) (l : List α) :
    (l.filter (fun e => f e = c) ++ l.filter (fun e => f e ∈ cs)).Perm
      (l.filter (fun e => f e ∈ c :: cs)) := by
  induction l with
  | nil => simp
  | cons a l ih =>
    by_cases h1 : f a = c
    · have h2 : f a ∉ cs := by rw [h1]; exact hc
      simpa [List.filter_cons, h1, h2, hc] using ih
    · by_cases h2 : f a ∈ cs
      · simp only [List.filter_cons, h1, h2, List.mem_cons, decide_True, decide_False,
          or_true, if_true, Bool.false_eq_true, if_false]
        exact List.perm_middle.trans (List.Perm.cons a (by simpa using ih))
      · simpa [List.filter_cons, h1, h2] using ih

theorem flatten_filter_perm {α : Type} (f : α → String) (cs : List String) (hnd : cs.Nodup)
    (l : List α) :
    ((cs.map (fun c => l.filter (fun e => f e = c))).flatten).Perm
      (l.filter (fun e => f e ∈ cs)) := by
  induction cs with
  | nil => simp
  | cons c cs ih =>
    have hc : c ∉ cs := (List.nodup_cons.mp hnd).1
    have hcs : cs.Nodup := (List.nodup_cons.mp hnd).2
    rw [List.map_cons, List.flatten_cons]
    exact ((List.Perm.append_left _ (ih hcs)).trans (filter_split_perm f c cs hc l))

theorem categoryOf_mem (e : PluginListEntry)
    (h : e.Info.Category = "" ∨ e.Info.Category ∈ categoryNames) :
    categoryOf e ∈ categoryNames := by
  unfold categoryOf
  rcases h with h | h
  · simp [h, categoryNames]
  · by_cases h0 : e.Info.Category = ""
    · simp [h0, categoryNames]
    · simpa [h0] using h

/-- C4, refuted as stated: of two entries of the category "vcs" given as
zeta, alpha, the list printed under the title is zeta, alpha as given, which
is not sorted by name. -/
theorem available_not_sorted_by_name :
    displayAvailablePlugins [zetaEntry, alphaEntry] =
        ["Available Plugins:", "", "Version Control:",
         "  zeta         1.0.0                  Zeta host",
         "  alpha        1.0.0                  Alpha host", "",
         "Use 'release-pilot plugin install <name>' to install a plugin.",
         "Use 'release-pilot plugin info <name>' for more details."] ∧
      (GoMap.get? (groupByCategory [zetaEntry, alphaEntry]) "vcs").map
          (fun plugins => plugins.map (fun e => e.Info.Name)) = some ["zeta", "alpha"] ∧
      ¬ List.Pairwise nameLE ["zeta", "alpha"] := by
  decide

/-- C4, amended: for every list of entries, `displayAvailablePlugins` prints,
between its first two lines and its last two, one section for each of the six
categories vcs, notification, package_manager, project_management, container,
other, in this order, that has an entry (an entry without category counting as
other); the section lists the entries of the category in the order in which
they stand in the list given, not sorted again by name. -/
theorem available_groups_in_given_order (entries : List PluginListEntry) :
    displayAvailablePlugins entries =
      ["Available Plugins:", ""] ++
        (categoryNames.map (fun c =>
          if entries.filter (fun e => categoryOf e = c) = [] then []
          else sectionLines c (entries.filter (fun e => categoryOf e = c)))).flatten ++
        ["Use 'release-pilot plugin install <name>' to install a plugin.",
         "Use 'release-pilot plugin info <name>' for more details."] :=
  displayAvailablePlugins_eq entries

/-- C5: when every entry has one of the categories vcs, notification,
package_manager, project_management, container, other, or none, what
`displayAvailablePlugins` prints is made of sections, each the title of a
category followed by its entries; every entry stands in exactly one place of
the sections taken together, in the section of its category (other for an
entry without category); the categories of the sections follow the fixed
order; and no section is without an entry. -/
theorem available_sections (entries : List PluginListEntry)
    (h : ∀ e ∈ entries, e.Info.Category = "" ∨ e.Info.Category ∈ categoryNames) :
    displayAvailablePlugins entries =
        ["Available Plugins:", ""] ++
          ((printedSections entries).map (fun s => sectionLines s.1 s.2)).flatten ++
          ["Use 'release-pilot plugin install <name>' to install a plugin.",
           "Use 'release-pilot plugin info <name>' for more details."] ∧
      (((printedSections entries).map (fun s => s.2)).flatten).Perm entries ∧
      (∀ s ∈ printedSections entries, s.2 ≠ [] ∧ ∀ e ∈ s.2, categoryOf e = s.1) ∧
      ((printedSections entries).map (fun s => s.1)).Sublist categoryNames := by
  refine ⟨?_, ?_, ?_, ?_⟩
  · rw [displayAvailablePlugins_eq]
    unfold printedSections
    rw [flatten_sections (fun c => entries.filter (fun e => categoryOf e = c)) sectionLines]
  · unfold printedSections
    rw [flatten_nonempty, List.map_map]
    have hall : entries.filter (fun e => categoryOf e ∈ categoryNames) = entries := by
      apply List.filter_eq_self.mpr
      intro e he
      simpa using categoryOf_mem e (h e he)
    have hperm := flatten_filter_perm categoryOf categoryNames (by decide) entries
    rw [hall] at hperm
    exact hperm
  · intro s hs
    unfold printedSections at hs
    rw [List.mem_filter, List.mem_map] at hs
    obtain ⟨⟨c, _, rfl⟩, hne⟩ := hs
    refine ⟨by simpa using hne, ?_⟩
    intro e he
    simpa using (List.mem_filter.mp he).2
  · unfold printedSections
    have hsub : (List.filter (fun s => s.2 ≠ [])
        (categoryNames.map (fun c => (c, entries.filter (fun e => categoryOf e = c))))).Sublist
        (categoryNames.map (fun c => (c, entries.filter (fun e => categoryOf e = c)))) :=
      List.filter_sublist _
    have := hsub.map (fun s => s.1)
    simpa [List.map_map, Function.comp_def] using this

/-- Witness of C5: a listing of three entries of the categories vcs, none, vcs. -/
theorem available_sections_witness :
    (((printedSections [zetaEntry, slackEntry, alphaEntry]).map (fun s => s.2)).flatten).Perm
        [zetaEntry, slackEntry, alphaEntry] ∧
      ((printedSections [zetaEntry, slackEntry, alphaEntry]).map (fun s => s.1)).Sublist
        categoryNames :=
  have h := available_sections [zetaEntry, slackEntry, alphaEntry] (by decide)
  ⟨h.2.1, h.2.2.2⟩

/-- C6: the status that `displayInstalledPlugins` prints in the row of an
entry depends on the status of the entry alone: the row starts with the icon
"✓" and has the text "enabled" for Enabled, "✗" and "disabled" for Installed,
"⚠" and "update" for UpdateAvailable, a blank and "unknown" for every other
status; the rows printed for four entries, one of each status, are given as
they stand. -/
theorem installed_status_column (entries : List PluginListEntry) :
    displayInstalledPlugins entries =
        ["Installed Plugins:", ""] ++
          entries.map (fun e =>
            "  " ++
              (match e.Status with
               | .StatusEnabled => "✓"
               | .StatusInstalled => "✗"
               | .StatusUpdateAvailable => "⚠"
               | _ => " ") ++
              " " ++ padRight 15 e.Info.Name ++ " (" ++ padRight 8 (installedVersion e) ++ ")  " ++
              (match e.Status with
               | .StatusEnabled => "enabled"
               | .StatusInstalled => "disabled"
               | .StatusUpdateAvailable => "update"
               | _ => "unknown") ++
              "  " ++ e.Info.Description) ++
          ["", "Use 'release-pilot plugin info <name>' for more details."] ∧
      displayInstalledPlugins [dockerEntry, githubEntry, slackEntry, zetaEntry] =
        ["Installed Plugins:", "",
         "  ✓ docker          (1.2.0   )  enabled  Docker images",
         "  ✗ github          (2.0.1   )  disabled  GitHub releases",
         "  ⚠ slack           (1.2.0   )  update  Slack messages",
         "    zeta            (1.0.0   )  unknown  Zeta host",
         "", "Use 'release-pilot plugin info <name>' for more details."] := by
  constructor
  · unfold displayInstalledPlugins
    congr 2
    apply List.map_congr_left
    intro e _
    unfold installedLine installedRow
    cases e.Status <;> rfl
  · decide

/-- C7: the version that `displayInstalledPlugins` prints in the row of an
entry, between the brackets after the name, is the version of its
`InstalledPlugin` record when it has one, and the version of its `PluginInfo`
only when it has none; the rows printed for an entry with a record behind the
registry and for an entry without a record are given as they stand. -/
theorem installed_version_column (entries : List PluginListEntry) :
    displayInstalledPlugins entries =
        ["Installed Plugins:", ""] ++
          entries.map (fun e =>
            "  " ++ (installedStatus e.Status).1 ++ " " ++ padRight 15 e.Info.Name ++ " (" ++
              padRight 8
                (match e.Installed with
                 | some installed => installed.Version
                 | none => e.Info.Version) ++
              ")  " ++ formatStatus (installedStatus e.Status).2 ++ "  " ++ e.Info.Description) ++
          ["", "Use 'release-pilot plugin info <name>' for more details."] ∧
      displayInstalledPlugins [githubEntry, zetaEntry] =
        ["Installed Plugins:", "",
         "  ✗ github          (2.0.1   )  disabled  GitHub releases",
         "    zeta            (1.0.0   )  unknown  Zeta host",
         "", "Use 'release-pilot plugin info <name>' for more details."] ∧
      githubEntry.Info.Version = "2.1.0" := by
  refine ⟨?_, by decide, rfl⟩
  unfold displayInstalledPlugins
  congr 2

/-! ## Maps of scores -/

namespace GoMap

variable {K V : Type} [DecidableEq K]

theorem ite_add (c : Prop) [Decidable c] (m : List (K × Int)) (k : K) (n : Int) :
    (if c then add m k n else m) = addWhen c m k n := rfl

theorem getD_nil (k : K) (z : V) : getD ([] : List (K × V)) k z = z := rfl

theorem getD_addWhen (c : Prop) [Decidable c] (m : List (K × Int)) (k : K) (n : Int) (k' : K) :
    getD (addWhen c m k n) k' 0 = getD m k' 0 + if c ∧ k = k' then n else 0 := by
  unfold addWhen add
  by_cases hc : c
  · by_cases hk : k = k'
    · subst hk; simp [hc, getD_set]
    · simp [hc, hk, getD_set]
  · simp [hc]

theorem keys_set (m : List (K × V)) (k : K) (v : V) :
    keys (set m k v) = if k ∈ keys m then keys m else keys m ++ [k] := by
  induction m with
  | nil => simp [set, keys]
  | cons p m ih =>
    obtain ⟨k0, v0⟩ := p
    by_cases h0 : k0 = k
    · subst h0; simp [set, keys]
    · have h0' : ¬ k = k0 := fun h => h0 h.symm
      unfold keys at ih ⊢
      simp only [set, h0, if_false, List.map_cons, ih, List.mem_cons, h0', false_or]
      split <;> simp

theorem nodup_set (m : List (K × V)) (k : K) (v : V) (h : (keys m).Nodup) :
    (keys (set m k v)).Nodup := by
  rw [keys_set]
  split
  · exact h
  · rename_i hk
    exact List.Nodup.append h (List.nodup_singleton k) (by simpa using hk)

theorem mem_set (m : List (K × V)) (k : K) (v : V) (p : K × V) (h : p ∈ set m k v) :
    p = (k, v) ∨ p ∈ m := by
  induction m with
  | nil => simpa [set] using h
  | cons q m ih =>
    obtain ⟨k0, v0⟩ := q
    by_cases h0 : k0 = k
    · simp only [set, h0, if_true, List.mem_cons] at h
      rcases h with h | h
      · exact Or.inl h
      · exact Or.inr (List.mem_cons_of_mem _ h)
    · simp only [set, h0, if_false, List.mem_cons] at h
      rcases h with h | h
      · exact Or.inr (by rw [h]; exact List.mem_cons_self _ _)
      · rcases ih h with h | h
        · exact Or.inl h
        · exact Or.inr (List.mem_cons_of_mem _ h)

theorem mem_of_get? (m : List (K × V)) (k : K) (v : V) (h : get? m k = some v) : (k, v) ∈ m := by
  induction m with
  | nil => simp [get?] at h
  | cons q m ih =>
    obtain ⟨k0, v0⟩ := q
    by_cases h0 : k0 = k
    · simp [get?, h0] at h; subst h0; subst h; exact List.mem_cons_self _ _
    · simp [get?, h0] at h; exact List.mem_cons_of_mem _ (ih h)

theorem get?_of_mem (m : List (K × V)) (hnd : (keys m).Nodup) (k : K) (v : V) (h : (k, v) ∈ m) :
    get? m k = some v := by
  induction m with
  | nil => simp at h
  | cons q m ih =>
    obtain ⟨k0, v0⟩ := q
    have hnd' : k0 ∉ keys m ∧ (keys m).Nodup := by simpa [keys] using hnd
    rcases List.mem_cons.mp h with h | h
    · cases h; simp [get?]
    · have hk : k ∈ keys m := List.mem_map.mpr ⟨(k, v), h, rfl⟩
      have h0 : ¬ k0 = k := fun e => hnd'.1 (e ▸ hk)
      simp [get?, h0, ih hnd'.2 h]

theorem getD_of_mem (m : List (K × Int)) (hnd : (keys m).Nodup) (p : K × Int) (h : p ∈ m) :
    getD m p.1 0 = p.2 := by
  unfold getD
  rw [get?_of_mem m hnd p.1 p.2 h]
  rfl

theorem getD_eq_zero_or_mem (m : List (K × Int)) (k : K) :
    getD m k 0 = 0 ∨ (k, getD m k 0) ∈ m := by
  unfold getD
  cases h : get? m k with
  | none => left; rfl
  | some v => right; exact mem_of_get? m k v h

theorem range_perm (m : List (K × V)) (ord : List K) : (range m ord).Perm m :=
  List.perm_insertionSort _ _

theorem mem_range (m : List (K × V)) (ord : List K) (p : K × V) : p ∈ range m ord ↔ p ∈ m :=
  (range_perm m ord).mem_iff

theorem isScores_addWhen (S : List K) (c : Prop) [Decidable c] (m : List (K × Int)) (k : K)
    (n : Int) (h : IsScores S m) (hk : k ∈ S) (hn : c → 0 < n) :
    IsScores S (addWhen c m k n) := by
  unfold addWhen
  by_cases hc : c
  · simp only [hc, if_true]
    refine ⟨nodup_set m k _ h.1, ?_⟩
    intro p hp
    rcases mem_set m k _ p hp with hp | hp
    · rw [hp]
      refine ⟨hk, ?_⟩
      have h0 : 0 ≤ getD m k 0 := by
        rcases getD_eq_zero_or_mem m k with h0 | h0
        · omega
        · exact le_of_lt (h.2 _ h0).2
      have := hn hc
      show 0 < getD m k 0 + n
      omega
    · exact h.2 p hp
  · simp only [hc, if_false]
    exact h

end GoMap

namespace GoMap

variable {K : Type}

theorem isScores_nil (S : List K) : IsScores S ([] : List (K × Int)) := by
  simp [IsScores, keys]

theorem highest_fold {D : Type} (entries : List (K × Int)) (update : D → K → Int → D)
    (maxScore : Int) (detection : D) :
    (entries.foldl (fun st e => if e.2 > st.1 then (e.2, update st.2 e.1 e.2) else st)
        (maxScore, detection) = (maxScore, detection) ∧ ∀ e ∈ entries, e.2 ≤ maxScore) ∨
      ∃ e ∈ entries, ∃ det,
        entries.foldl (fun st e => if e.2 > st.1 then (e.2, update st.2 e.1 e.2) else st)
          (maxScore, detection) = (e.2, update det e.1 e.2) ∧
        maxScore < e.2 ∧ ∀ e' ∈ entries, e'.2 ≤ e.2 := by
  induction entries generalizing maxScore detection with
  | nil => left; simp
  | cons a es ih =>
    rw [List.foldl_cons]
    by_cases ha : a.2 > maxScore
    · simp only [ha, if_true]
      rcases ih a.2 (update detection a.1 a.2) with ⟨h1, h2⟩ | ⟨e, he, det, h1, h2, h3⟩
      · right
        refine ⟨a, List.mem_cons_self _ _, detection, h1, ha, ?_⟩
        intro e' he'
        rcases List.mem_cons.mp he' with h | h
        · rw [h]
        · exact h2 e' h
      · right
        refine ⟨e, List.mem_cons_of_mem _ he, det, h1, by omega, ?_⟩
        intro e' he'
        rcases List.mem_cons.mp he' with h | h
        · rw [h]; omega
        · exact h3 e' h
    · simp only [ha, if_false]
      rcases ih maxScore detection with ⟨h1, h2⟩ | ⟨e, he, det, h1, h2, h3⟩
      · left
        refine ⟨h1, ?_⟩
        intro e' he'
        rcases List.mem_cons.mp he' with h | h
        · rw [h]; omega
        · exact h2 e' h
      · right
        refine ⟨e, List.mem_cons_of_mem _ he, det, h1, h2, ?_⟩
        intro e' he'
        rcases List.mem_cons.mp he' with h | h
        · rw [h]; omega
        · exact h3 e' h

theorem highest_cases {D : Type} (entries : List (K × Int)) (update : D → K → Int → D)
    (detection : D) :
    ((highest entries update detection).2 = detection ∧ ∀ e ∈ entries, e.2 ≤ 0) ∨
      ∃ e ∈ entries, ∃ det,
        (highest entries update detection).2 = update det e.1 e.2 ∧
        0 < e.2 ∧ ∀ e' ∈ entries, e'.2 ≤ e.2 := by
  unfold highest
  rcases highest_fold entries update 0 detection with ⟨h1, h2⟩ | ⟨e, he, det, h1, h2, h3⟩
  · left; rw [h1]; exact ⟨rfl, h2⟩
  · right; exact ⟨e, he, det, by rw [h1], h2, h3⟩

theorem highest_inv {D : Type} (P : D → Prop) (entries : List (K × Int))
    (update : D → K → Int → D) (hupd : ∀ det k v, P det → P (update det k v)) (detection : D)
    (h0 : P detection) : P (highest entries update detection).2 := by
  unfold highest
  generalize (0 : Int) = maxScore
  induction entries generalizing maxScore detection with
  | nil => exact h0
  | cons a es ih =>
    rw [List.foldl_cons]
    split
    · apply ih
      exact hupd _ _ _ h0
    · apply ih
      exact h0

end GoMap

/-! ## The scores of the detection -/

theorem foldl_inv {α β : Type} (P : β → Prop) (f : β → α → β) (l : List α) (b : β) (h0 : P b)
    (hstep : ∀ b a, P b → P (f b a)) : P (l.foldl f b) := by
  induction l generalizing b with
  | nil => exact h0
  | cons a l ih =>
    rw [List.foldl_cons]
    apply ih
    exact hstep b a h0

theorem isScores_bounds {K : Type} [DecidableEq K] (S : List K) (m : List (K × Int)) (B : Int)
    (h : GoMap.IsScores S m) (hb : ∀ k ∈ S, GoMap.getD m k 0 ≤ B) :
    ∀ e ∈ m, 0 ≤ e.2 ∧ e.2 ≤ B := by
  intro e he
  refine ⟨le_of_lt (h.2 e he).2, ?_⟩
  have := hb e.1 (h.2 e he).1
  rw [GoMap.getD_of_mem m h.1 e he] at this
  exact this

theorem highest_bounds {K D : Type} [DecidableEq K] (conf : D → Int) (m : List (K × Int))
    (ord : List K) (update : D → K → Int → D) (hconf : ∀ det k v, conf (update det k v) = v)
    (detection : D) (B : Int) (h0 : 0 ≤ conf detection ∧ conf detection ≤ B)
    (hall : ∀ e ∈ m, 0 ≤ e.2 ∧ e.2 ≤ B) :
    0 ≤ conf (GoMap.highest (GoMap.range m ord) update detection).2 ∧
      conf (GoMap.highest (GoMap.range m ord) update detection).2 ≤ B := by
  rcases GoMap.highest_cases (GoMap.range m ord) update detection with
    ⟨h1, _⟩ | ⟨e, he, det, h1, _, _⟩
  · rw [h1]; exact h0
  · rw [h1, hconf]
    exact hall e ((GoMap.mem_range m ord e).mp he)

theorem languageScores_isScores (fs : FileSystem) (d : Detector) :
    GoMap.IsScores languages (d.languageScores fs) := by
  simp only [Detector.languageScores, GoMap.ite_add]
  repeat first
    | exact GoMap.isScores_nil _
    | refine GoMap.isScores_addWhen _ _ _ _ _ ?_ (by decide) (fun _ => by decide)

theorem languageScore_le (fs : FileSystem) (d : Detector) (l : Language) (hl : l ∈ languages) :
    GoMap.getD (d.languageScores fs) l 0 ≤ 100 := by
  simp only [languages, List.mem_cons, List.mem_singleton, List.not_mem_nil, or_false] at hl
  simp only [Detector.languageScores, GoMap.ite_add, GoMap.getD_addWhen, GoMap.getD_nil]
  rcases hl with h | h | h | h | h <;> subst h <;>
    simp [LanguageGo, LanguageNode, LanguagePython, LanguageRust, LanguageRuby] <;>
    split_ifs <;> omega

theorem platformScores_isScores (fs : FileSystem) (d : Detector) :
    GoMap.IsScores platforms (d.platformScores fs) := by
  simp only [Detector.platformScores, GoMap.ite_add]
  repeat first
    | exact GoMap.isScores_nil _
    | refine GoMap.isScores_addWhen _ _ _ _ _ ?_ (by decide) (fun _ => by decide)

theorem platformScore_le (fs : FileSystem) (d : Detector) (l : Platform) (hl : l ∈ platforms) :
    GoMap.getD (d.platformScores fs) l 0 ≤ 100 := by
  simp only [platforms, List.mem_cons, List.mem_singleton, List.not_mem_nil, or_false] at hl
  simp only [Detector.platformScores, GoMap.ite_add, GoMap.getD_addWhen, GoMap.getD_nil]
  rcases hl with h | h | h <;> subst h <;>
    simp [PlatformDocker, PlatformKubernetes, PlatformServerless] <;>
    split_ifs <;> omega

theorem projectTypeScores_isScores (fs : FileSystem) (d : Detector) (detection : Detection) :
    GoMap.IsScores projectTypes (d.projectTypeScores fs detection) := by
  simp only [Detector.projectTypeScores, GoMap.ite_add]
  repeat first
    | exact GoMap.isScores_nil _
    | refine GoMap.isScores_addWhen _ _ _ _ _ ?_ (by decide) (fun _ => by decide)
    | refine GoMap.isScores_addWhen _ _ _ _ _ ?_ (by decide) (fun h => by omega)

theorem projectTypeScore_le (fs : FileSystem) (d : Detector) (detection : Detection)
    (l : ProjectType) (hl : l ∈ projectTypes) :
    GoMap.getD (d.projectTypeScores fs detection) l 0 ≤ 100 := by
  simp only [projectTypes, List.mem_cons, List.mem_singleton, List.not_mem_nil, or_false] at hl
  simp only [Detector.projectTypeScores, GoMap.ite_add, GoMap.getD_addWhen, GoMap.getD_nil]
  rcases hl with h | h | h | h | h | h | h <;> subst h <;>
    simp [ProjectTypeCLI, ProjectTypeLibrary, ProjectTypeAPI, ProjectTypeSaaS,
      ProjectTypeMonorepo, ProjectTypeContainer, ProjectTypeOpenSource] <;>
    split_ifs <;> omega

/-! ## The detection steps -/

theorem detectLanguage_frame (fs : FileSystem) (d : Detector) (ord ord2 : List Language)
    (detection : Detection) :
    ∃ l c s, (d.detectLanguage fs ord ord2 detection).1 =
      { detection with Language := l, LanguageConfidence := c, SecondaryLanguages := s } := by
  unfold Detector.detectLanguage
  dsimp only
  refine foldl_inv (fun det => ∃ l c s, det =
    { detection with Language := l, LanguageConfidence := c, SecondaryLanguages := s })
    _ _ _ ?_ ?_
  · refine GoMap.highest_inv (fun det => ∃ l c s, det =
      { detection with Language := l, LanguageConfidence := c, SecondaryLanguages := s })
      _ _ ?_ _ ?_
    · rintro det k v ⟨l, c, s, rfl⟩
      exact ⟨k, v, s, rfl⟩
    · exact ⟨_, _, _, rfl⟩
  · rintro det e ⟨l, c, s, rfl⟩
    split
    · exact ⟨_, _, _, rfl⟩
    · exact ⟨_, _, _, rfl⟩

theorem secondary_keeps (l : List (Language × Int)) (detection : Detection) :
    (l.foldl
        (fun det e =>
          if e.1 ≠ det.Language ∧ e.2 ≥ 40 then
            { det with SecondaryLanguages := det.SecondaryLanguages ++ [e.1] }
          else det)
        detection).Language = detection.Language ∧
      (l.foldl
        (fun det e =>
          if e.1 ≠ det.Language ∧ e.2 ≥ 40 then
            { det with SecondaryLanguages := det.SecondaryLanguages ++ [e.1] }
          else det)
        detection).LanguageConfidence = detection.LanguageConfidence := by
  refine foldl_inv
    (fun det : Detection => det.Language = detection.Language ∧
      det.LanguageConfidence = detection.LanguageConfidence) _ _ _ ⟨rfl, rfl⟩ ?_
  rintro det e ⟨h1, h2⟩
  split
  · exact ⟨h1, h2⟩
  · exact ⟨h1, h2⟩

theorem detectLanguage_primary (fs : FileSystem) (d : Detector) (ord ord2 : List Language)
    (detection : Detection) :
    (d.detectLanguage fs ord ord2 detection).1.Language =
        (GoMap.highest (GoMap.range (d.languageScores fs) ord)
          (fun det lang score => { det with Language := lang, LanguageConfidence := score })
          detection).2.Language ∧
      (d.detectLanguage fs ord ord2 detection).1.LanguageConfidence =
        (GoMap.highest (GoMap.range (d.languageScores fs) ord)
          (fun det lang score => { det with Language := lang, LanguageConfidence := score })
          detection).2.LanguageConfidence := by
  unfold Detector.detectLanguage
  exact secondary_keeps _ _

theorem detectPlatform_frame (fs : FileSystem) (d : Detector) (ord : List Platform)
    (detection : Detection) :
    ∃ p c hd hk, (d.detectPlatform fs ord detection).1 =
      { detection with Platform := p, PlatformConfidence := c, HasDockerfile := hd,
                       HasKubernetesConfig := hk } := by
  unfold Detector.detectPlatform
  dsimp only
  refine GoMap.highest_inv (fun det => ∃ p c hd hk, det =
    { detection with Platform := p, PlatformConfidence := c, HasDockerfile := hd,
                     HasKubernetesConfig := hk }) _ _ ?_ _ ?_
  · rintro det k v ⟨p, c, hd, hk, rfl⟩
    exact ⟨k, v, hd, hk, rfl⟩
  · split_ifs <;> exact ⟨_, _, _, _, rfl⟩

theorem detectProjectType_frame (fs : FileSystem) (d : Detector) (ord : List ProjectType)
    (detection : Detection) :
    ∃ t c m, (d.detectProjectType fs ord detection).1 =
      { detection with ProjectType := t, TypeConfidence := c, IsMonorepo := m } := by
  have h : ∃ t c m, (GoMap.highest
      (GoMap.range (d.projectTypeScores fs detection) ord)
      (fun det projectType score =>
        { det with ProjectType := projectType, TypeConfidence := score })
      (if (d.fileExists fs "lerna.json" || d.fileExists fs "pnpm-workspace.yaml") = true then
        { (if (d.dirExists fs "packages" || d.dirExists fs "apps") = true then
            { detection with IsMonorepo := true } else detection) with IsMonorepo := true }
       else (if (d.dirExists fs "packages" || d.dirExists fs "apps") = true then
            { detection with IsMonorepo := true } else detection))).2 =
      { detection with ProjectType := t, TypeConfidence := c, IsMonorepo := m } := by
    refine GoMap.highest_inv (fun det => ∃ t c m, det =
      { detection with ProjectType := t, TypeConfidence := c, IsMonorepo := m }) _ _ ?_ _ ?_
    · rintro det k v ⟨t, c, m, rfl⟩
      exact ⟨k, v, m, rfl⟩
    · split_ifs <;> exact ⟨_, _, _, rfl⟩
  obtain ⟨t, c, m, h⟩ := h
  unfold Detector.detectProjectType
  simp only [h]
  split_ifs <;> exact ⟨_, _, _, rfl⟩

theorem detectGit_frame (fs : FileSystem) (d : Detector) (detection : Detection) :
    ∃ b r, (d.detectGit fs detection).1 =
      { detection with GitBranch := b, GitRepository := r } := by
  unfold Detector.detectGit
  cases fs.PlainOpen d.basePath with
  | error err => exact ⟨_, _, rfl⟩
  | ok repo =>
    dsimp only
    cases repo.Head <;> rcases repo.Remotes with _ | _ | ⟨_ | _, _⟩ <;> exact ⟨_, _, rfl⟩

theorem detectTools_frame (fs : FileSystem) (d : Detector) (detection : Detection) :
    ∃ ci cp pm bt, (d.detectTools fs detection).1 =
      { detection with HasCI := ci, CIProvider := cp, PackageManager := pm, BuildTool := bt } := by
  unfold Detector.detectTools
  dsimp only
  generalize hd1 : (if Detector.dirExists fs d ".github/workflows" = true then _ else _) = det1
  have h1 : ∃ ci cp, det1 = { detection with HasCI := ci, CIProvider := cp } := by
    rw [← hd1]
    split_ifs <;> exact ⟨_, _, rfl⟩
  obtain ⟨ci, cp, h1⟩ := h1
  rw [h1]
  split_ifs <;> exact ⟨_, _, _, _, rfl⟩

theorem suggestTemplate_frame (detection : Detection) :
    ∃ t, Detector.suggestTemplate detection = { detection with SuggestedTemplate := t } := by
  unfold Detector.suggestTemplate
  split_ifs <;> exact ⟨_, rfl⟩

theorem detect_eq (fs : FileSystem) (d : Detector) (ord : RangeOrders) :
    d.Detect fs ord =
      (some (Detector.suggestTemplate (d.detectTools fs (d.detectGit fs
        (d.detectProjectType fs ord.projectType (d.detectPlatform fs ord.platform
          (d.detectLanguage fs ord.language ord.secondary initialDetection).1).1).1).1).1),
        none) := rfl

theorem detectLanguage_confident (fs : FileSystem) (d : Detector) (ord ord2 : List Language)
    (detection : Detection) (h : detection.Confident) :
    (d.detectLanguage fs ord ord2 detection).1.Confident := by
  have hl : 0 ≤ (d.detectLanguage fs ord ord2 detection).1.LanguageConfidence ∧
      (d.detectLanguage fs ord ord2 detection).1.LanguageConfidence ≤ 100 := by
    rw [(detectLanguage_primary fs d ord ord2 detection).2]
    exact highest_bounds (fun det : Detection => det.LanguageConfidence) _ _ _ (fun _ _ _ => rfl) _ 100
      ⟨h.1, h.2.1⟩
      (isScores_bounds languages _ 100 (languageScores_isScores fs d) (languageScore_le fs d))
  obtain ⟨l, c, s, hf⟩ := detectLanguage_frame fs d ord ord2 detection
  refine ⟨hl.1, hl.2, ?_⟩
  rw [hf]
  exact h.2.2

theorem detectPlatform_confident (fs : FileSystem) (d : Detector) (ord : List Platform)
    (detection : Detection) (h : detection.Confident) :
    (d.detectPlatform fs ord detection).1.Confident := by
  have hp : 0 ≤ (d.detectPlatform fs ord detection).1.PlatformConfidence ∧
      (d.detectPlatform fs ord detection).1.PlatformConfidence ≤ 100 := by
    unfold Detector.detectPlatform
    dsimp only
    exact highest_bounds (fun det : Detection => det.PlatformConfidence) _ _ _ (fun _ _ _ => rfl) _ 100
      (by split_ifs <;> exact ⟨h.2.2.1, h.2.2.2.1⟩)
      (isScores_bounds platforms _ 100 (platformScores_isScores fs d) (platformScore_le fs d))
  obtain ⟨p, c, hd, hk, hf⟩ := detectPlatform_frame fs d ord detection
  refine ⟨?_, ?_, hp.1, hp.2, ?_⟩
  · rw [hf]; exact h.1
  · rw [hf]; exact h.2.1
  · rw [hf]; exact h.2.2.2.2

theorem detectProjectType_confident (fs : FileSystem) (d : Detector) (ord : List ProjectType)
    (detection : Detection) (h : detection.Confident) :
    (d.detectProjectType fs ord detection).1.Confident := by
  have ht : 0 ≤ (d.detectProjectType fs ord detection).1.TypeConfidence ∧
      (d.detectProjectType fs ord detection).1.TypeConfidence ≤ 100 := by
    unfold Detector.detectProjectType
    dsimp only
    generalize hH : (GoMap.highest _ _ _).2 = H
    have hb : 0 ≤ H.TypeConfidence ∧ H.TypeConfidence ≤ 100 := by
      rw [← hH]
      exact highest_bounds (fun det : Detection => det.TypeConfidence) _ _ _ (fun _ _ _ => rfl)
        _ 100 (by split_ifs <;> exact ⟨h.2.2.2.2.1, h.2.2.2.2.2⟩)
        (isScores_bounds projectTypes _ 100 (projectTypeScores_isScores fs d detection)
          (projectTypeScore_le fs d detection))
    split
    · show (0 : Int) ≤ 50 ∧ (50 : Int) ≤ 100
      decide
    · exact hb
  obtain ⟨t, c, m, hf⟩ := detectProjectType_frame fs d ord detection
  refine ⟨?_, ?_, ?_, ?_, ht.1, ht.2⟩
  · rw [hf]; exact h.1
  · rw [hf]; exact h.2.1
  · rw [hf]; exact h.2.2.1
  · rw [hf]; exact h.2.2.2.1

theorem detectGit_confident (fs : FileSystem) (d : Detector) (detection : Detection)
    (h : detection.Confident) : (d.detectGit fs detection).1.Confident := by
  obtain ⟨b, r, hf⟩ := detectGit_frame fs d detection
  rw [hf]; exact h

theorem detectTools_confident (fs : FileSystem) (d : Detector) (detection : Detection)
    (h : detection.Confident) : (d.detectTools fs detection).1.Confident := by
  obtain ⟨ci, cp, pm, bt, hf⟩ := detectTools_frame fs d detection
  rw [hf]; exact h

theorem suggestTemplate_confident (detection : Detection) (h : detection.Confident) :
    (Detector.suggestTemplate detection).Confident := by
  obtain ⟨t, hf⟩ := suggestTemplate_frame detection
  rw [hf]; exact h

theorem detectLanguage_git (fs : FileSystem) (d : Detector) (ord ord2 : List Language)
    (detection : Detection) :
    (d.detectLanguage fs ord ord2 detection).1.GitRepository = detection.GitRepository ∧
      (d.detectLanguage fs ord ord2 detection).1.GitBranch = detection.GitBranch := by
  obtain ⟨l, c, s, hf⟩ := detectLanguage_frame fs d ord ord2 detection
  rw [hf]
  exact ⟨rfl, rfl⟩

theorem detectPlatform_git (fs : FileSystem) (d : Detector) (ord : List Platform)
    (detection : Detection) :
    (d.detectPlatform fs ord detection).1.GitRepository = detection.GitRepository ∧
      (d.detectPlatform fs ord detection).1.GitBranch = detection.GitBranch := by
  obtain ⟨p, c, hd, hk, hf⟩ := detectPlatform_frame fs d ord detection
  rw [hf]
  exact ⟨rfl, rfl⟩

theorem detectProjectType_git (fs : FileSystem) (d : Detector) (ord : List ProjectType)
    (detection : Detection) :
    (d.detectProjectType fs ord detection).1.GitRepository = detection.GitRepository ∧
      (d.detectProjectType fs ord detection).1.GitBranch = detection.GitBranch := by
  obtain ⟨t, c, m, hf⟩ := detectProjectType_frame fs d ord detection
  rw [hf]
  exact ⟨rfl, rfl⟩

theorem detectTools_git (fs : FileSystem) (d : Detector) (detection : Detection) :
    (d.detectTools fs detection).1.GitRepository = detection.GitRepository ∧
      (d.detectTools fs detection).1.GitBranch = detection.GitBranch := by
  obtain ⟨ci, cp, pm, bt, hf⟩ := detectTools_frame fs d detection
  rw [hf]
  exact ⟨rfl, rfl⟩

theorem suggestTemplate_git (detection : Detection) :
    (Detector.suggestTemplate detection).GitRepository = detection.GitRepository ∧
      (Detector.suggestTemplate detection).GitBranch = detection.GitBranch := by
  obtain ⟨t, hf⟩ := suggestTemplate_frame detection
  rw [hf]
  exact ⟨rfl, rfl⟩


/-- C8: when `git.PlainOpen` fails on the base path, `Detect` still returns a
detection with a nil error; `GitRepository` and `GitBranch` are empty, and the
detection is the one that the language, platform, project type, tool and
template steps compute from the file system, git left out. -/
theorem detect_without_git (fs : FileSystem) (d : Detector) (ord : RangeOrders) (err : GoError)
    (hgit : fs.PlainOpen d.basePath = .error err) :
    ∃ det, d.Detect fs ord = (some det, none) ∧
      det.GitRepository = "" ∧ det.GitBranch = "" ∧
      det = Detector.suggestTemplate (d.detectTools fs
        (d.detectProjectType fs ord.projectType (d.detectPlatform fs ord.platform
          (d.detectLanguage fs ord.language ord.secondary initialDetection).1).1).1).1 := by
  have hg : ∀ x, (d.detectGit fs x).1 = x := by
    intro x
    simp only [Detector.detectGit, hgit]
  refine ⟨_, detect_eq fs d ord, ?_, ?_, ?_⟩
  · rw [hg, (suggestTemplate_git _).1, (detectTools_git fs d _).1,
      (detectProjectType_git fs d _ _).1, (detectPlatform_git fs d _ _).1,
      (detectLanguage_git fs d _ _ _).1]
    rfl
  · rw [hg, (suggestTemplate_git _).2, (detectTools_git fs d _).2,
      (detectProjectType_git fs d _ _).2, (detectPlatform_git fs d _ _).2,
      (detectLanguage_git fs d _ _ _).2]
    rfl
  · rw [hg]

/-- Witness of C8: the Go module `goProject`, which is not a git repository. -/
theorem detect_without_git_witness :
    ∃ det, (NewDetector "").Detect goProject plainOrders = (some det, none) ∧
      det.GitRepository = "" ∧ det.GitBranch = "" ∧
      det = Detector.suggestTemplate ((NewDetector "").detectTools goProject
        ((NewDetector "").detectProjectType goProject plainOrders.projectType
          ((NewDetector "").detectPlatform goProject plainOrders.platform
            ((NewDetector "").detectLanguage goProject plainOrders.language
              plainOrders.secondary initialDetection).1).1).1).1 :=
  detect_without_git goProject (NewDetector "") plainOrders (.base "repository does not exist") rfl

/-- C9: the three confidence scores of the detection that `Detect` returns
lie between 0 and 100, whatever the file system. -/
theorem detect_confidence_bounds (fs : FileSystem) (d : Detector) (ord : RangeOrders) :
    ∃ det, d.Detect fs ord = (some det, none) ∧
      (0 ≤ det.LanguageConfidence ∧ det.LanguageConfidence ≤ 100) ∧
      (0 ≤ det.PlatformConfidence ∧ det.PlatformConfidence ≤ 100) ∧
      (0 ≤ det.TypeConfidence ∧ det.TypeConfidence ≤ 100) := by
  have h0 : initialDetection.Confident := by decide
  have h := suggestTemplate_confident _ (detectTools_confident fs d _ (detectGit_confident fs d _
    (detectProjectType_confident fs d ord.projectType _
      (detectPlatform_confident fs d ord.platform _
        (detectLanguage_confident fs d ord.language ord.secondary _ h0)))))
  exact ⟨_, detect_eq fs d ord, ⟨h.1, h.2.1⟩, ⟨h.2.2.1, h.2.2.2.1⟩, ⟨h.2.2.2.2.1, h.2.2.2.2.2⟩⟩

/-- C10: after `detectLanguage`, run on the detection that `Detect` starts
from, the method has returned nil; when some language among Go, Node, Python,
Rust and Ruby has a score other than zero, `Language` is one of the five with
the highest score and `LanguageConfidence` is that score; when all five scores
are zero, `Language` is unknown and `LanguageConfidence` is 0. -/
theorem detectLanguage_highest (fs : FileSystem) (d : Detector) (ord ord2 : List Language) :
    (d.detectLanguage fs ord ord2 initialDetection).2 = none ∧
      ((∃ l ∈ languages, d.languageScore fs l ≠ 0) →
        (d.detectLanguage fs ord ord2 initialDetection).1.Language ∈ languages ∧
        (∀ l ∈ languages, d.languageScore fs l ≤
          d.languageScore fs (d.detectLanguage fs ord ord2 initialDetection).1.Language) ∧
        (d.detectLanguage fs ord ord2 initialDetection).1.LanguageConfidence =
          d.languageScore fs (d.detectLanguage fs ord ord2 initialDetection).1.Language) ∧
      ((∀ l ∈ languages, d.languageScore fs l = 0) →
        (d.detectLanguage fs ord ord2 initialDetection).1.Language = LanguageUnknown ∧
        (d.detectLanguage fs ord ord2 initialDetection).1.LanguageConfidence = 0) := by
  have hs := languageScores_isScores fs d
  obtain ⟨hL, hC⟩ := detectLanguage_primary fs d ord ord2 initialDetection
  rw [hL, hC]
  refine ⟨rfl, ?_, ?_⟩
  · rintro ⟨l, _, hne⟩
    rcases GoMap.highest_cases (GoMap.range (d.languageScores fs) ord)
        (fun det lang score => { det with Language := lang, LanguageConfidence := score })
        initialDetection with ⟨_, h2⟩ | ⟨e, he, det, h1, h2, h3⟩
    · exfalso
      rcases GoMap.getD_eq_zero_or_mem (d.languageScores fs) l with h0 | h0
      · exact hne h0
      · have hpos := (hs.2 _ h0).2
        have hle := h2 _ ((GoMap.mem_range _ ord _).mpr h0)
        exact absurd hpos (not_lt.mpr hle)
    · have he' := (GoMap.mem_range _ ord _).mp he
      have hscore : d.languageScore fs e.1 = e.2 := GoMap.getD_of_mem _ hs.1 e he'
      rw [h1]
      refine ⟨(hs.2 e he').1, ?_, hscore.symm⟩
      intro l' _
      show d.languageScore fs l' ≤ d.languageScore fs e.1
      rw [hscore]
      rcases GoMap.getD_eq_zero_or_mem (d.languageScores fs) l' with h0 | h0
      · unfold Detector.languageScore
        rw [h0]
        exact le_of_lt h2
      · exact h3 _ ((GoMap.mem_range _ ord _).mpr h0)
  · intro hzero
    rcases GoMap.highest_cases (GoMap.range (d.languageScores fs) ord)
        (fun det lang score => { det with Language := lang, LanguageConfidence := score })
        initialDetection with ⟨h1, _⟩ | ⟨e, he, det, _, h2, _⟩
    · rw [h1]
      exact ⟨rfl, rfl⟩
    · exfalso
      have he' := (GoMap.mem_range _ ord _).mp he
      have hscore : d.languageScore fs e.1 = e.2 := GoMap.getD_of_mem _ hs.1 e he'
      have := hzero e.1 (hs.2 e he').1
      omega


/-! ## The orders of iteration -/

theorem pairwise_indexOf {α : Type} [DecidableEq α] (L : List α) (hnd : L.Nodup) :
    L.Pairwise (fun x y => L.indexOf x ≤ L.indexOf y) := by
  rw [List.pairwise_iff_get]
  intro i j hij
  rw [List.get_indexOf hnd, List.get_indexOf hnd]
  exact le_of_lt hij

theorem map_eq_of_injOn {α β : Type} (f : α → β) (l1 l2 : List α) (h : l1.map f = l2.map f)
    (hinj : ∀ a ∈ l1, ∀ b ∈ l2, f a = f b → a = b) : l1 = l2 := by
  induction l1 generalizing l2 with
  | nil =>
    cases l2 with
    | nil => rfl
    | cons b l2 => simp at h
  | cons a l1 ih =>
    cases l2 with
    | nil => simp at h
    | cons b l2 =>
      simp only [List.map_cons, List.cons.injEq] at h
      have hab : a = b := hinj a (List.mem_cons_self _ _) b (List.mem_cons_self _ _) h.1
      rw [hab, ih l2 h.2 (fun x hx y hy => hinj x (List.mem_cons_of_mem _ hx) y
        (List.mem_cons_of_mem _ hy))]

namespace GoMap
variable {K V : Type} [DecidableEq K]

/-- Every order of the entries of a map is the order of some iteration: a
`range` with the keys of the order as its argument goes through the entries in
that order. -/
theorem range_complete (m l : List (K × V)) (hnd : (keys m).Nodup) (hp : l.Perm m) :
    range m (keys l) = l := by
  have hndl : (keys l).Nodup := (hp.map Prod.fst).nodup_iff.mpr hnd
  have hl : (l.map (fun a => (keys l).indexOf a.1)).Sorted (· ≤ ·) := by
    have h := pairwise_indexOf (keys l) hndl
    unfold keys at h ⊢
    rw [List.pairwise_map] at h
    exact List.pairwise_map.mpr h
  have hr : ((range m (keys l)).map (fun a => (keys l).indexOf a.1)).Sorted (· ≤ ·) := by
    have : IsTotal (K × V) (fun a b => (keys l).indexOf a.1 ≤ (keys l).indexOf b.1) :=
      ⟨fun a b => le_total _ _⟩
    have : IsTrans (K × V) (fun a b => (keys l).indexOf a.1 ≤ (keys l).indexOf b.1) :=
      ⟨fun a b c hab hbc => le_trans hab hbc⟩
    exact List.pairwise_map.mpr
      (List.sorted_insertionSort
        (fun a b : K × V => (keys l).indexOf a.1 ≤ (keys l).indexOf b.1) m)
  have hperm : (range m (keys l)).Perm l := (range_perm m (keys l)).trans hp.symm
  have hmap := List.eq_of_perm_of_sorted (hperm.map _) hr hl
  apply map_eq_of_injOn _ _ _ hmap
  intro a ha b hb hab
  have ha' : a ∈ m := (mem_range m _ a).mp ha
  have hb' : b ∈ m := hp.subset hb
  have hka : a.1 ∈ keys l := List.mem_map.mpr ⟨a, hp.symm.subset ha', rfl⟩
  have hkb : b.1 ∈ keys l := List.mem_map.mpr ⟨b, hb, rfl⟩
  have hkey : a.1 = b.1 := by
    have := congrArg (fun i => (keys l).get? i) hab
    simp only [List.get?_eq_getElem?] at this
    rw [List.getElem?_eq_getElem (List.indexOf_lt_length.mpr hka),
      List.getElem?_eq_getElem (List.indexOf_lt_length.mpr hkb)] at this
    simpa using this
  have h1 := get?_of_mem m hnd a.1 a.2 ha'
  have h2 := get?_of_mem m hnd b.1 b.2 hb'
  rw [hkey, h2] at h1
  exact Prod.ext hkey (Option.some.inj h1).symm

end GoMap

/-! ## The model on two projects -/

/-- The model run on `goProject`: a Go command line tool, with the score 80
of `go.mod` and a `.go` file. -/
theorem detect_goProject :
    (NewDetector "").Detect goProject plainOrders =
      (some { Language := "go", LanguageConfidence := 80, Platform := "native",
              ProjectType := "cli", TypeConfidence := 30, PackageManager := "go modules",
              SuggestedTemplate := "opensource-go" }, none) := by
  decide

/-- With two languages of the same highest score the language detected
depends on the order of the iteration over the map. -/
theorem detectLanguage_tie :
    ((NewDetector "").detectLanguage polyglotProject [] [] initialDetection).1.Language = "go" ∧
      ((NewDetector "").detectLanguage polyglotProject ["node"] [] initialDetection).1.Language =
        "node" ∧
      (NewDetector "").languageScore polyglotProject "go" = 80 ∧
      (NewDetector "").languageScore polyglotProject "node" = 80 := by
  decide


/-! ## The secondary languages -/

theorem secondary_fold (l : List (Language × Int)) (detection : Detection) :
    (l.foldl
        (fun det e =>
          if e.1 ≠ det.Language ∧ e.2 ≥ 40 then
            { det with SecondaryLanguages := det.SecondaryLanguages ++ [e.1] }
          else det)
        detection).SecondaryLanguages =
      detection.SecondaryLanguages ++
        (l.filter (fun e => e.1 ≠ detection.Language ∧ e.2 ≥ 40)).map Prod.fst := by
  induction l generalizing detection with
  | nil => simp
  | cons e es ih =>
    rw [List.foldl_cons, ih]
    by_cases h : e.1 ≠ detection.Language ∧ e.2 ≥ 40
    · rw [if_pos h, List.filter_cons, if_pos (decide_eq_true h)]
      simp
    · have hd : ¬ decide (e.1 ≠ detection.Language ∧ e.2 ≥ 40) = true :=
        fun hd => h (of_decide_eq_true hd)
      rw [if_neg h, List.filter_cons, if_neg hd]

theorem detectLanguage_secondary (fs : FileSystem) (d : Detector) (ord ord2 : List Language) :
    (d.detectLanguage fs ord ord2 initialDetection).1.SecondaryLanguages =
      ((GoMap.range (d.languageScores fs) ord2).filter
        (fun e => e.1 ≠ (d.detectLanguage fs ord ord2 initialDetection).1.Language ∧
          e.2 ≥ 40)).map Prod.fst := by
  rw [(detectLanguage_primary fs d ord ord2 initialDetection).1]
  unfold Detector.detectLanguage
  dsimp only
  rw [secondary_fold]
  have h0 : (GoMap.highest (GoMap.range (d.languageScores fs) ord)
      (fun det lang score => { det with Language := lang, LanguageConfidence := score })
      initialDetection).2.SecondaryLanguages = [] := by
    refine GoMap.highest_inv (fun det : Detection => det.SecondaryLanguages = []) _ _ ?_ _ rfl
    intro det k v h
    exact h
  rw [h0, List.nil_append]

/-- C11: after `detectLanguage`, run on the detection that `Detect` starts
from, `SecondaryLanguages` has no language twice, and a language is in it
exactly when it differs from the primary `Language` and its score is at least
40; so no language with a score below 40 and never the primary language is in
it. -/
theorem detectLanguage_secondary_languages (fs : FileSystem) (d : Detector)
    (ord ord2 : List Language) :
    (d.detectLanguage fs ord ord2 initialDetection).1.SecondaryLanguages.Nodup ∧
      ∀ l : Language,
        l ∈ (d.detectLanguage fs ord ord2 initialDetection).1.SecondaryLanguages ↔
          l ≠ (d.detectLanguage fs ord ord2 initialDetection).1.Language ∧
            40 ≤ d.languageScore fs l := by
  have hs := languageScores_isScores fs d
  rw [detectLanguage_secondary]
  constructor
  · have hnd : ((GoMap.range (d.languageScores fs) ord2).map Prod.fst).Nodup :=
      ((GoMap.range_perm (d.languageScores fs) ord2).map Prod.fst).nodup_iff.mpr hs.1
    exact hnd.sublist ((List.filter_sublist _).map Prod.fst)
  · intro l
    rw [List.mem_map]
    constructor
    · rintro ⟨e, he, rfl⟩
      rw [List.mem_filter] at he
      have hmem := (GoMap.mem_range _ ord2 e).mp he.1
      have hscore : d.languageScore fs e.1 = e.2 := GoMap.getD_of_mem _ hs.1 e hmem
      have hc := of_decide_eq_true he.2
      exact ⟨hc.1, by rw [hscore]; exact hc.2⟩
    · rintro ⟨hne, hge⟩
      rcases GoMap.getD_eq_zero_or_mem (d.languageScores fs) l with h0 | h0
      · exfalso
        unfold Detector.languageScore at hge
        omega
      · refine ⟨(l, GoMap.getD (d.languageScores fs) l 0), ?_, rfl⟩
        rw [List.mem_filter]
        exact ⟨(GoMap.mem_range _ ord2 _).mpr h0, decide_eq_true ⟨hne, hge⟩⟩


/-! ## The search for files with an extension -/

theorem reachableAmong_eq_any (ext : String) (cs : List WalkNode) :
    reachableAmong ext cs = cs.any (reachable ext) := by
  induction cs with
  | nil => rfl
  | cons c cs ih => simp [reachableAmong, ih]

mutual
theorem walk_ext (ext : String) : ∀ node : WalkNode,
    walk (extWalkFunc ext) node false =
      (reachable ext node,
        if reachable ext node then some WalkErr.SkipAll
        else match node with
          | .dir name _ => if GoMap.getD ignoredDirs name false then some WalkErr.SkipDir else none
          | _ => none)
  | .lstatErr => rfl
  | .file name => by
    simp only [walk, extWalkFunc, reachable]
    cases h : HasSuffix name ext <;> simp
  | .dirErr _ => rfl
  | .dir name children => by
    simp only [walk, extWalkFunc, reachable]
    cases h : GoMap.getD ignoredDirs name false
    · simp only [Bool.and_false, Bool.false_eq_true, if_false, Bool.and_true, Bool.not_false,
        Bool.true_and, Bool.not_true, Bool.false_and]
      rw [walkEntries_ext ext children]
    · simp
theorem walkEntries_ext (ext : String) : ∀ cs : List WalkNode,
    walkEntries (extWalkFunc ext) cs false =
      (reachableAmong ext cs, if reachableAmong ext cs then some WalkErr.SkipAll else none)
  | [] => rfl
  | c :: cs => by
    have hc := walk_ext ext c
    have hcs := walkEntries_ext ext cs
    cases c with
    | lstatErr =>
      simp only [walkEntries, reachableAmong]
      rw [hc]
      simp [reachable, hcs]
    | file name =>
      simp only [walkEntries, reachableAmong]
      rw [hc]
      simp only [reachable]
      rcases Bool.eq_false_or_eq_true (HasSuffix name ext) with h | h
      · simp [h, WalkNode.IsDir]
      · simp [h, hcs]
    | dirErr name =>
      simp only [walkEntries, reachableAmong]
      rw [hc]
      simp [reachable, hcs]
    | dir name children =>
      simp only [walkEntries, reachableAmong]
      rw [hc]
      simp only [reachable]
      rcases Bool.eq_false_or_eq_true (GoMap.getD ignoredDirs name false) with h2 | h2
      · simp [h2, hcs, WalkNode.IsDir]
      · rcases Bool.eq_false_or_eq_true (reachableAmong ext children) with h | h
        · simp [h2, h, WalkNode.IsDir]
        · simp [h2, h, hcs]
end

theorem walk_finds (ext : String) (root : WalkNode) :
    (Walk (extWalkFunc ext) root false).1 = reachable ext root := by
  unfold Walk
  rw [walk_ext]
  dsimp only
  split_ifs <;> rfl

mutual
theorem reaches_of_reachable (ext : String) :
    ∀ node : WalkNode, reachable ext node = true → Reaches ext node
  | .lstatErr => by simp [reachable]
  | .file name => by
    intro h
    exact Reaches.file name (by simpa [reachable] using h)
  | .dirErr _ => by simp [reachable]
  | .dir name children => by
    intro h
    simp only [reachable, Bool.and_eq_true, Bool.not_eq_true'] at h
    obtain ⟨c, hc, hr⟩ := reaches_among ext children h.2
    exact Reaches.dir name children c h.1 hc hr
theorem reaches_among (ext : String) :
    ∀ cs : List WalkNode, reachableAmong ext cs = true → ∃ c ∈ cs, Reaches ext c
  | [] => by simp [reachableAmong]
  | c :: cs => by
    intro h
    simp only [reachableAmong, Bool.or_eq_true] at h
    rcases h with h | h
    · exact ⟨c, List.mem_cons_self _ _, reaches_of_reachable ext c h⟩
    · obtain ⟨c', hc', hr⟩ := reaches_among ext cs h
      exact ⟨c', List.mem_cons_of_mem _ hc', hr⟩
end

theorem reachable_of_reaches (ext : String) (node : WalkNode) (h : Reaches ext node) :
    reachable ext node = true := by
  induction h with
  | file name hs => simpa [reachable] using hs
  | dir name children c hi hc _ ih =>
    simp only [reachable, Bool.and_eq_true, Bool.not_eq_true']
    refine ⟨hi, ?_⟩
    rw [reachableAmong_eq_any, List.any_eq_true]
    exact ⟨c, hc, ih⟩

theorem reachable_iff_reaches (ext : String) (node : WalkNode) :
    reachable ext node = true ↔ Reaches ext node :=
  ⟨reaches_of_reachable ext node, reachable_of_reaches ext node⟩

/-- With no directory given, `hasFilesWithExt` walks the tree at the base path
joined to the base path: `searchDirs` is the base path, and the loop joins the
base path to each search directory. -/
theorem hasFilesWithExt_default (fs : FileSystem) (d : Detector) (ext : String) :
    d.hasFilesWithExt fs ext [] = reachable ext (fs.Tree (fs.Join d.basePath d.basePath)) := by
  simp [Detector.hasFilesWithExt, walk_finds]

/-- C12: `hasFilesWithExt` returns true exactly when, in the tree at one of the
searched directories, some non-directory entry whose name ends with the
extension is reachable from the root of the search through directories none of
which is named in `ignoredDirs`, the root counted among them; the walk of a
directory named in `ignoredDirs` finds nothing, whatever lies beneath it. -/
theorem hasFilesWithExt_iff_reaches (fs : FileSystem) (d : Detector) (ext : String)
    (dirs : List String) :
    (d.hasFilesWithExt fs ext dirs = true ↔
        ∃ dir ∈ (if dirs.length = 0 then [d.basePath] else dirs),
          Reaches ext (fs.Tree (fs.Join d.basePath dir))) ∧
      ∀ name children, GoMap.getD ignoredDirs name false = true →
        (Walk (extWalkFunc ext) (.dir name children) false).1 = false := by
  constructor
  · unfold Detector.hasFilesWithExt
    dsimp only
    rw [List.any_eq_true]
    constructor
    · rintro ⟨dir, hdir, h⟩
      rw [walk_finds] at h
      exact ⟨dir, hdir, (reachable_iff_reaches ext _).mp h⟩
    · rintro ⟨dir, hdir, h⟩
      refine ⟨dir, hdir, ?_⟩
      rw [walk_finds]
      exact (reachable_iff_reaches ext _).mpr h
  · intro name children h
    rw [walk_finds]
    simp [reachable, h]

/-- The search on `vendoredProject`: the Markdown files are found, the Go file
under `vendor` is not, and a search that starts in `vendor` itself finds
nothing. -/
theorem hasFilesWithExt_vendored :
    (NewDetector "").hasFilesWithExt vendoredProject ".md" [] = true ∧
      (NewDetector "").hasFilesWithExt vendoredProject ".go" [] = false ∧
      (Walk (extWalkFunc ".go") (.dir "vendor" [.dir "lib" [.file "lib.go"]]) false).1 = false ∧
      (Walk (extWalkFunc ".go") (.dir "src" [.dir "lib" [.file "lib.go"]]) false).1 = true := by
  decide


/-! ## The suggested template -/

theorem detectProjectType_eq (fs : FileSystem) (d : Detector) (ord : List ProjectType)
    (detection : Detection) :
    (d.detectProjectType fs ord detection).1 =
      defaultToCLI (GoMap.highest (GoMap.range (d.projectTypeScores fs detection) ord)
        (fun det projectType score =>
          { det with ProjectType := projectType, TypeConfidence := score })
        (d.monorepoFlag fs detection)).2 := rfl

theorem monorepoFlag_projectType (fs : FileSystem) (d : Detector) (detection : Detection) :
    (d.monorepoFlag fs detection).ProjectType = detection.ProjectType := by
  unfold Detector.monorepoFlag
  dsimp only
  split_ifs <;> rfl

theorem monorepoFlag_isMonorepo (fs : FileSystem) (d : Detector) (detection : Detection)
    (h : (d.dirExists fs "packages" || d.dirExists fs "apps") = true ∨
      (d.fileExists fs "lerna.json" || d.fileExists fs "pnpm-workspace.yaml") = true) :
    (d.monorepoFlag fs detection).IsMonorepo = true := by
  unfold Detector.monorepoFlag
  dsimp only
  rcases h with h | h
  · rw [if_pos h]
    split_ifs <;> rfl
  · rw [if_pos h]

theorem monorepoScore_pos (fs : FileSystem) (d : Detector) (detection : Detection)
    (h : 0 < GoMap.getD (d.projectTypeScores fs detection) ProjectTypeMonorepo 0) :
    (d.dirExists fs "packages" || d.dirExists fs "apps") = true ∨
      (d.fileExists fs "lerna.json" || d.fileExists fs "pnpm-workspace.yaml") = true := by
  simp only [Detector.projectTypeScores, GoMap.ite_add, GoMap.getD_addWhen, GoMap.getD_nil] at h
  simp [ProjectTypeCLI, ProjectTypeLibrary, ProjectTypeAPI, ProjectTypeSaaS,
    ProjectTypeMonorepo, ProjectTypeContainer, ProjectTypeOpenSource] at h
  by_contra hc
  simp only [not_or, Bool.not_eq_true] at hc
  simp only [Bool.or_eq_false_iff] at hc
  simp [hc.1.1, hc.1.2, hc.2.1, hc.2.2] at h

theorem defaultToCLI_monorepo (detection : Detection)
    (h : (defaultToCLI detection).ProjectType = ProjectTypeMonorepo) :
    detection.ProjectType = ProjectTypeMonorepo ∧
      (defaultToCLI detection).IsMonorepo = detection.IsMonorepo := by
  unfold defaultToCLI at h ⊢
  split_ifs at h ⊢
  · have hne : ProjectTypeCLI ≠ ProjectTypeMonorepo := by decide
    exact absurd h hne
  · exact ⟨h, rfl⟩

theorem detectProjectType_monorepo (fs : FileSystem) (d : Detector) (ord : List ProjectType)
    (detection : Detection) (h0 : detection.ProjectType ≠ ProjectTypeMonorepo)
    (h : (d.detectProjectType fs ord detection).1.ProjectType = ProjectTypeMonorepo) :
    (d.detectProjectType fs ord detection).1.IsMonorepo = true := by
  rw [detectProjectType_eq] at h ⊢
  obtain ⟨hH, hI⟩ := defaultToCLI_monorepo _ h
  rw [hI]
  have hs := projectTypeScores_isScores fs d detection
  rcases GoMap.highest_cases (GoMap.range (d.projectTypeScores fs detection) ord)
      (fun det projectType score =>
        { det with ProjectType := projectType, TypeConfidence := score })
      (d.monorepoFlag fs detection) with ⟨h1, _⟩ | ⟨e, he, det, h1, h2, _⟩
  · rw [h1, monorepoFlag_projectType] at hH
    exact absurd hH h0
  · rw [h1] at hH
    have he' := (GoMap.mem_range _ ord e).mp he
    have hscore := GoMap.getD_of_mem _ hs.1 e he'
    have hkey : e.1 = ProjectTypeMonorepo := hH
    rw [hkey] at hscore
    have hflag := monorepoFlag_isMonorepo fs d detection
      (monorepoScore_pos fs d detection (by rw [hscore]; exact h2))
    refine GoMap.highest_inv (fun det : Detection => det.IsMonorepo = true) _ _ ?_ _ hflag
    intro det k v hdet
    exact hdet

theorem suggestTemplate_monorepo (detection : Detection) (h : detection.IsMonorepo = true) :
    (Detector.suggestTemplate detection).SuggestedTemplate = "monorepo" := by
  unfold Detector.suggestTemplate
  rw [if_pos h]

theorem detectLanguage_projectType (fs : FileSystem) (d : Detector) (ord ord2 : List Language)
    (detection : Detection) :
    (d.detectLanguage fs ord ord2 detection).1.ProjectType = detection.ProjectType := by
  obtain ⟨l, c, s, hf⟩ := detectLanguage_frame fs d ord ord2 detection
  rw [hf]

theorem detectPlatform_projectType (fs : FileSystem) (d : Detector) (ord : List Platform)
    (detection : Detection) :
    (d.detectPlatform fs ord detection).1.ProjectType = detection.ProjectType := by
  obtain ⟨p, c, hd, hk, hf⟩ := detectPlatform_frame fs d ord detection
  rw [hf]

theorem detectGit_projectType (fs : FileSystem) (d : Detector) (detection : Detection) :
    (d.detectGit fs detection).1.ProjectType = detection.ProjectType ∧
      (d.detectGit fs detection).1.IsMonorepo = detection.IsMonorepo := by
  obtain ⟨b, r, hf⟩ := detectGit_frame fs d detection
  rw [hf]
  exact ⟨rfl, rfl⟩

theorem detectTools_projectType (fs : FileSystem) (d : Detector) (detection : Detection) :
    (d.detectTools fs detection).1.ProjectType = detection.ProjectType ∧
      (d.detectTools fs detection).1.IsMonorepo = detection.IsMonorepo := by
  obtain ⟨ci, cp, pm, bt, hf⟩ := detectTools_frame fs d detection
  rw [hf]
  exact ⟨rfl, rfl⟩

theorem suggestTemplate_projectType (detection : Detection) :
    (Detector.suggestTemplate detection).ProjectType = detection.ProjectType := by
  obtain ⟨t, hf⟩ := suggestTemplate_frame detection
  rw [hf]

/-- C13: whenever the detection that `Detect` returns has the project type
monorepo, its suggested template is "monorepo", whatever the language and
whatever the file system and the orders of iteration. -/
theorem detect_monorepo_template (fs : FileSystem) (d : Detector) (ord : RangeOrders)
    (h : (d.Detect fs ord).1.map (fun det => det.ProjectType) = some ProjectTypeMonorepo) :
    (d.Detect fs ord).1.map (fun det => det.SuggestedTemplate) = some "monorepo" := by
  rw [detect_eq] at h ⊢
  simp only [Option.map_some', Option.some.injEq] at h ⊢
  rw [suggestTemplate_projectType, (detectTools_projectType fs d _).1,
    (detectGit_projectType fs d _).1] at h
  have hmono := detectProjectType_monorepo fs d ord.projectType _
    (by
      rw [detectPlatform_projectType, detectLanguage_projectType]
      decide) h
  apply suggestTemplate_monorepo
  rw [(detectTools_projectType fs d _).2, (detectGit_projectType fs d _).2]
  exact hmono

/-- Witness of C13: the workspace `workspaceProject`, a Node project with a
`packages` directory. -/
theorem detect_monorepo_template_witness :
    ((NewDetector "").Detect workspaceProject plainOrders).1.map (fun det => det.Language) =
        some LanguageNode ∧
      ((NewDetector "").Detect workspaceProject plainOrders).1.map
        (fun det => det.SuggestedTemplate) = some "monorepo" :=
  ⟨by decide, detect_monorepo_template workspaceProject (NewDetector "") plainOrders (by decide)⟩


/-- C14, refuted as stated: for the detection `containerInMonorepo`, of project
type container with `IsMonorepo` set, `suggestTemplate` gives "monorepo"; and
`Detect` itself returns such a detection on `containerWorkspace` when the loop
over the project types meets container first. -/
theorem container_in_monorepo_template :
    containerInMonorepo.ProjectType = ProjectTypeContainer ∧
      (Detector.suggestTemplate containerInMonorepo).SuggestedTemplate = "monorepo" ∧
      ((NewDetector "").Detect containerWorkspace containerFirst).1.map
          (fun det => (det.ProjectType, det.IsMonorepo, det.SuggestedTemplate)) =
        some (ProjectTypeContainer, true, "monorepo") := by
  decide

/-- C14, amended: for every detection of project type container,
`suggestTemplate` sets `SuggestedTemplate` to "container" when `IsMonorepo` is
not set, whatever the language, and to "monorepo" when `IsMonorepo` is set:
the monorepo flag comes before the project type. -/
theorem suggestTemplate_container (detection : Detection)
    (h : detection.ProjectType = ProjectTypeContainer) :
    (Detector.suggestTemplate detection).SuggestedTemplate =
      if detection.IsMonorepo then "monorepo" else "container" := by
  unfold Detector.suggestTemplate
  by_cases hm : detection.IsMonorepo = true
  · rw [if_pos hm, if_pos hm]
  · rw [if_neg hm, if_neg hm, if_pos h]

/-- Witness of C14: the detection `containerAlone`, a Rust project, gets the
template "container". -/
theorem suggestTemplate_container_witness :
    containerAlone.Language = LanguageRust ∧
      (Detector.suggestTemplate containerAlone).SuggestedTemplate =
        if containerAlone.IsMonorepo then "monorepo" else "container" :=
  ⟨rfl, suggestTemplate_container containerAlone rfl⟩

end ReleasePilot
